import Mathlib

/-!
Verification of the BroLab test-script corpus.

The repository consists of Python HTTP-assertion test scripts plus one
regex-based patch script.  Each test script is embedded shallowly as a
function from an "API behavior" (the HTTP results the system under test
would return for the requests the script sends) to an `Except`-style
outcome mirroring Python control flow: `Except.ok ()` means the script
runs to completion with every `assert` passing; `Except.error .assertFail`
is a failed `assert`; `Except.error .exc` is any other exception
(transport error, `ValueError` from `.json()`, `TypeError`,
`AttributeError`, `pytest.fail`, ...).

JSON bodies are modelled by the inductive `Json`; Python `dict.get`,
subscripting, the `in` operator and truthiness are modelled by the
`py*` helpers below, including the cases where they raise.
-/

namespace BroLab

/-- A JSON value, also standing for the Python value produced by
`response.json()` (`Json.null` doubles as Python `None`).  Numbers are
modelled as integers; the test payloads and assertions only ever compare
numbers for order/equality, so this loses nothing the claims depend on. -/
inductive Json where
  | null : Json
  | bool (b : Bool) : Json
  | num (n : Int) : Json
  | str (s : String) : Json
  | arr (xs : List Json) : Json
  | obj (fields : List (String × Json)) : Json

namespace Json

/-- Decidable structural equality (written out by hand because `deriving`
does not handle the nested `List` occurrences). -/
def decEq : (a b : Json) → Decidable (a = b)
  | .null, .null => .isTrue rfl
  | .bool a, .bool b =>
    if h : a = b then .isTrue (by rw [h]) else .isFalse (fun hh => by injection hh with hh'; exact h hh')
  | .num a, .num b =>
    if h : a = b then .isTrue (by rw [h]) else .isFalse (fun hh => by injection hh with hh'; exact h hh')
  | .str a, .str b =>
    if h : a = b then .isTrue (by rw [h]) else .isFalse (fun hh => by injection hh with hh'; exact h hh')
  | .arr [], .arr [] => .isTrue rfl
  | .arr [], .arr (_ :: _) => .isFalse (fun h => by injection h with h'; exact List.noConfusion h')
  | .arr (_ :: _), .arr [] => .isFalse (fun h => by injection h with h'; exact List.noConfusion h')
  | .arr (x :: xs), .arr (y :: ys) =>
    match decEq x y, decEq (.arr xs) (.arr ys) with
    | .isTrue h1, .isTrue h2 => .isTrue (by injection h2 with h3; rw [h1, h3])
    | .isFalse h1, _ => .isFalse (fun h => by
        injection h with hl; injection hl with ha hb; exact h1 ha)
    | _, .isFalse h2 => .isFalse (fun h => by
        injection h with hl; injection hl with ha hb; exact h2 (by rw [hb]))
  | .obj [], .obj [] => .isTrue rfl
  | .obj [], .obj (_ :: _) => .isFalse (fun h => by injection h with h'; exact List.noConfusion h')
  | .obj (_ :: _), .obj [] => .isFalse (fun h => by injection h with h'; exact List.noConfusion h')
  | .obj ((k, v) :: fs), .obj ((k', v') :: gs) =>
    match String.decEq k k', decEq v v', decEq (.obj fs) (.obj gs) with
    | .isTrue hk, .isTrue h1, .isTrue h2 => .isTrue (by injection h2 with h3; rw [hk, h1, h3])
    | .isFalse hk, _, _ => .isFalse (fun h => by
        injection h with hl; injection hl with ha hb
        exact hk (congrArg Prod.fst ha))
    | _, .isFalse h1, _ => .isFalse (fun h => by
        injection h with hl; injection hl with ha hb
        exact h1 (congrArg Prod.snd ha))
    | _, _, .isFalse h2 => .isFalse (fun h => by
        injection h with hl; injection hl with ha hb
        exact h2 (by rw [hb]))
  | .null, .bool _ => .isFalse (fun h => by cases h)
  | .null, .num _ => .isFalse (fun h => by cases h)
  | .null, .str _ => .isFalse (fun h => by cases h)
  | .null, .arr _ => .isFalse (fun h => by cases h)
  | .null, .obj _ => .isFalse (fun h => by cases h)
  | .bool _, .null => .isFalse (fun h => by cases h)
  | .bool _, .num _ => .isFalse (fun h => by cases h)
  | .bool _, .str _ => .isFalse (fun h => by cases h)
  | .bool _, .arr _ => .isFalse (fun h => by cases h)
  | .bool _, .obj _ => .isFalse (fun h => by cases h)
  | .num _, .null => .isFalse (fun h => by cases h)
  | .num _, .bool _ => .isFalse (fun h => by cases h)
  | .num _, .str _ => .isFalse (fun h => by cases h)
  | .num _, .arr _ => .isFalse (fun h => by cases h)
  | .num _, .obj _ => .isFalse (fun h => by cases h)
  | .str _, .null => .isFalse (fun h => by cases h)
  | .str _, .bool _ => .isFalse (fun h => by cases h)
  | .str _, .num _ => .isFalse (fun h => by cases h)
  | .str _, .arr _ => .isFalse (fun h => by cases h)
  | .str _, .obj _ => .isFalse (fun h => by cases h)
  | .arr _, .null => .isFalse (fun h => by cases h)
  | .arr _, .bool _ => .isFalse (fun h => by cases h)
  | .arr _, .num _ => .isFalse (fun h => by cases h)
  | .arr _, .str _ => .isFalse (fun h => by cases h)
  | .arr _, .obj _ => .isFalse (fun h => by cases h)
  | .obj _, .null => .isFalse (fun h => by cases h)
  | .obj _, .bool _ => .isFalse (fun h => by cases h)
  | .obj _, .num _ => .isFalse (fun h => by cases h)
  | .obj _, .str _ => .isFalse (fun h => by cases h)
  | .obj _, .arr _ => .isFalse (fun h => by cases h)

instance : DecidableEq Json := decEq

/-- Key lookup in a JSON object (first matching key); `none` when the
value is not an object or the key is absent. -/
def lookup : Json → String → Option Json
  | .obj fields, k => go fields k
  | _, _ => none
where go : List (String × Json) → String → Option Json
  | [], _ => none
  | (k', v) :: rest, k => if k' = k then some v else go rest k

/-- Python `d.get(k)` as a total value: the looked-up value, or `null`
(Python `None`) when missing or when `d` is not a dict.  Used to state
claim-side conditions; the executable script embeddings use `pyGet`
etc., which also model the raised exceptions. -/
def getVal (j : Json) (k : String) : Json := (j.lookup k).getD .null

def isObj : Json → Bool
  | .obj _ => true
  | _ => false

def isArr : Json → Bool
  | .arr _ => true
  | _ => false

end Json

/-- Python truthiness of a JSON value. -/
def pyTruthy : Json → Bool
  | .null => false
  | .bool b => b
  | .num n => n != 0
  | .str s => s != ""
  | .arr xs => xs != []
  | .obj fs => fs != []

/-- Outcome kind of a Python exception escaping a test script. -/
inductive PyErr where
  | assertFail : PyErr
  | exc : PyErr
deriving DecidableEq, Repr

abbrev PyResult := Except PyErr Unit

def pyAssert (b : Bool) : PyResult :=
  if b then .ok () else .error .assertFail

/-- Python `d.get(k)`: `none` models the `AttributeError` raised when the
receiver is not a dict; otherwise the value (or Python `None` = `null`). -/
def pyGet (j : Json) (k : String) : Except PyErr Json :=
  match j with
  | .obj _ => .ok (j.getVal k)
  | _ => .error .exc

/-- Python `d.get(k, default)`. -/
def pyGetD (j : Json) (k : String) (dflt : Json) : Except PyErr Json :=
  match j with
  | .obj _ => .ok ((j.lookup k).getD dflt)
  | _ => .error .exc

/-- Test whether `needle` occurs at the front of `hay`. -/
def atFront : List Char → List Char → Bool
  | [], _ => true
  | _ :: _, [] => false
  | n :: ns, h :: hs => n == h && atFront ns hs

/-- Test whether `needle` occurs contiguously in `hay`. -/
def subOccurs (needle : List Char) : List Char → Bool
  | [] => atFront needle []
  | h :: hs => atFront needle (h :: hs) || subOccurs needle hs

/-- Python `needle in hay` on strings. -/
def strContains (hay needle : String) : Bool := subOccurs needle.data hay.data

/-- Python `s.lower()` over the ASCII range (the only characters the
scripts' data uses); defined by structural recursion so it evaluates. -/
def pyCharLower (c : Char) : Char :=
  if 'A' <= c && c <= 'Z' then Char.ofNat (c.toNat + 32) else c

def strLower (s : String) : String := ⟨s.data.map pyCharLower⟩

/-- Python `k in x` for a string `k`: key membership for dicts, element
membership for lists, substring test for strings, `TypeError` (modelled
as `none`) otherwise. -/
def pyIn (k : String) (j : Json) : Option Bool :=
  match j with
  | .obj fields => some (fields.any (fun p => p.1 == k))
  | .arr xs => some (xs.any (fun x => x == .str k))
  | .str s => some (strContains s k)
  | _ => none

/-- Python `x[k]` for a string key `k`: dict lookup (missing key raises),
`TypeError` for every other receiver. -/
def pyIndex (j : Json) (k : String) : Except PyErr Json :=
  match j with
  | .obj _ =>
    match j.lookup k with
    | some v => .ok v
    | none => .error .exc
  | _ => .error .exc

/-- Lift a `pyIn`-style partial result into the script monad. -/
def liftOpt : Option Bool → Except PyErr Bool
  | some b => .ok b
  | none => .error .exc

/-- An HTTP response as the scripts observe it: a status code and the
result of `response.json()` (`none` when the body is not valid JSON, in
which case `.json()` raises `ValueError`). -/
structure HttpResp where
  status : Nat
  body : Option Json
deriving DecidableEq

/-- Result of one `requests.*` call: either a transport-level exception
or a response. -/
inductive HttpResult where
  | exc : HttpResult
  | resp (r : HttpResp) : HttpResult
deriving DecidableEq

/-- Python `response.json()`. -/
def respJson (r : HttpResp) : Except PyErr Json :=
  match r.body with
  | some j => .ok j
  | none => .error .exc

/-- Python `try: t finally: f` at outcome level: if the `finally` suite
raises, its exception replaces the primary outcome; otherwise the
primary outcome stands. -/
def pyTryFinally (t f : PyResult) : PyResult :=
  match f with
  | .error e => .error e
  | .ok _ => t

/-! ### Generic lemmas about the script monad -/

theorem bind_ok_iff {α β : Type} (a : Except PyErr α) (f : α → Except PyErr β) (u : β) :
    (a >>= f) = .ok u ↔ ∃ x, a = .ok x ∧ f x = .ok u := by
  cases a with
  | error e => simp [Bind.bind, Except.bind]
  | ok x => simp [Bind.bind, Except.bind]

theorem pyAssert_ok_iff (c : Bool) : pyAssert c = .ok () ↔ c = true := by
  cases c <;> simp [pyAssert]

theorem respJson_ok_iff (r : HttpResp) (j : Json) :
    respJson r = .ok j ↔ r.body = some j := by
  cases h : r.body <;> simp [respJson, h]

/-! ## TC001 — order creation with idempotency
(`testsprite_tests/TC001_create_order_with_idempotency_support.py`)

The script sends two `POST /api/orders` with the same `Idempotency-Key`,
asserts both return 201, that the first body has a truthy `id`, and that
the second body's `id` equals the first's; a `finally` block then makes a
best-effort DELETE with every exception swallowed. -/

/-- The HTTP results the order API would return for the three requests
the TC001 script can send. -/
structure TC001Behavior where
  r1 : HttpResult
  r2 : HttpResult
  rdel : HttpResult
deriving DecidableEq

/-- Python `assert k in d and d[k]` (short-circuit `and`, with the
`TypeError`/`KeyError` crashes of `in` and subscripting). -/
def pyAssertKeyTruthy (j : Json) (k : String) : PyResult := do
  let m1 ← liftOpt (pyIn k j)
  let c1 ← if m1 then (do
      let v ← pyIndex j k
      pure (pyTruthy v))
    else pure false
  pyAssert c1

/-- The `try` suite of `test_create_order_with_idempotency_support`. -/
def tc001_try (b : TC001Behavior) : PyResult :=
  match b.r1 with
  | .exc => .error .exc
  | .resp r1 => do
    pyAssert (r1.status == 201)
    let data1 ← respJson r1
    -- assert "id" in data1 and data1["id"]
    pyAssertKeyTruthy data1 "id"
    match b.r2 with
    | .exc => .error .exc
    | .resp r2 => do
      pyAssert (r2.status == 201)
      let data2 ← respJson r2
      -- assert data2.get("id") == data1.get("id")
      let v2 ← pyGet data2 "id"
      let v1 ← pyGet data1 "id"
      pyAssert (v2 == v1)

/-- The value bound to `data1` when the `finally` suite runs (`none`
when `data1` was never assigned, which the cleanup's
`except Exception: pass` absorbs as a `NameError`). -/
def tc001_data1 (b : TC001Behavior) : Option Json :=
  match b.r1 with
  | .exc => none
  | .resp r1 => if r1.status == 201 then r1.body else none

/-- The `finally` suite: recover `order_id` from `data1` (all exceptions
caught), then attempt the DELETE with all exceptions caught. -/
def tc001_cleanup (data1b : Option Json) (rdel : HttpResult) : PyResult :=
  let order_id : Json :=
    match data1b with
    | none => .null
    | some d =>
      match d with
      | .obj _ => d.getVal "id"
      | _ => .null
  if pyTruthy order_id then
    match rdel with
    | .exc => .ok ()
    | .resp _ => .ok ()
  else .ok ()

/-- The whole TC001 script body. -/
def test_create_order_with_idempotency_support (b : TC001Behavior) : PyResult :=
  pyTryFinally (tc001_try b) (tc001_cleanup (tc001_data1 b) b.rdel)

/-- The acceptance condition claim C1 states: both creations return 201,
the first body has a truthy (non-empty) `id`, and the second body's `id`
equals the first's. -/
def tc001_accepting (b : TC001Behavior) : Prop :=
  match b.r1, b.r2 with
  | .resp r1, .resp r2 =>
    r1.status = 201 ∧ r2.status = 201 ∧
    ∃ j1 j2, r1.body = some j1 ∧ r2.body = some j2 ∧
      pyTruthy (j1.getVal "id") = true ∧ j2.getVal "id" = j1.getVal "id"
  | _, _ => False

/-! Supporting lemmas for C1. -/

theorem liftOpt_ok_iff (o : Option Bool) (x : Bool) : liftOpt o = .ok x ↔ o = some x := by
  cases o <;> simp [liftOpt]

theorem pyGet_ok_iff (j : Json) (k : String) (v : Json) :
    pyGet j k = .ok v ↔ j.isObj = true ∧ v = j.getVal k := by
  cases j <;> simp [pyGet, Json.isObj, eq_comm]

theorem pyIndex_ok_iff (j : Json) (k : String) (v : Json) :
    pyIndex j k = .ok v ↔ j.lookup k = some v := by
  cases j with
  | obj fs =>
    simp only [pyIndex]
    cases h : Json.lookup (.obj fs) k <;> simp [h]
  | _ => simp [pyIndex, Json.lookup]

theorem lookup_go_isSome (fs : List (String × Json)) (k : String) :
    (fs.any (fun p => p.1 == k)) = (Json.lookup.go fs k).isSome := by
  induction fs with
  | nil => simp [Json.lookup.go]
  | cons p rest ih =>
    by_cases h : p.1 = k
    · simp [Json.lookup.go, h]
    · simp [Json.lookup.go, h, ih]

theorem getVal_obj_of_lookup {fs : List (String × Json)} {k : String} {v : Json}
    (h : Json.lookup.go fs k = some v) : (Json.obj fs).getVal k = v := by
  simp [Json.getVal, Json.lookup, h]

theorem pyTruthy_getVal_nonobj {j : Json} (h : j.isObj = false) (k : String) :
    pyTruthy (j.getVal k) = false := by
  cases j <;> simp_all [Json.isObj, Json.getVal, Json.lookup, pyTruthy]

theorem isObj_of_truthy_getVal {j : Json} {k : String}
    (h : pyTruthy (j.getVal k) = true) : j.isObj = true := by
  cases hj : j.isObj
  · rw [pyTruthy_getVal_nonobj hj k] at h; cases h
  · rfl

theorem pyAssertKeyTruthy_ok_iff (j : Json) (k : String) :
    pyAssertKeyTruthy j k = .ok () ↔ pyTruthy (j.getVal k) = true := by
  cases j with
  | obj fs =>
    cases hm : fs.any (fun p => p.1 == k) with
    | false =>
      have hl : Json.lookup.go fs k = none := by
        have := lookup_go_isSome fs k
        rw [hm] at this
        cases h : Json.lookup.go fs k
        · rfl
        · rw [h] at this; cases this
      simp [pyAssertKeyTruthy, Bind.bind, Except.bind, Pure.pure, Except.pure, pyIn, hm, liftOpt, pyAssert, Json.getVal, Json.lookup, hl, pyTruthy]
    | true =>
      have hl : ∃ v, Json.lookup.go fs k = some v := by
        have := lookup_go_isSome fs k
        rw [hm] at this
        cases h : Json.lookup.go fs k
        · rw [h] at this; cases this
        · exact ⟨_, rfl⟩
      obtain ⟨v, hv⟩ := hl
      have hg : (Json.obj fs).getVal k = v := getVal_obj_of_lookup hv
      simp [pyAssertKeyTruthy, Bind.bind, Except.bind, Pure.pure, Except.pure, pyIn, hm, liftOpt, pyIndex, Json.lookup, hv, hg, pyAssert_ok_iff]
  | arr xs =>
    cases hm : xs.any (fun x => x == Json.str k) with
    | false =>
      simp [pyAssertKeyTruthy, Bind.bind, Except.bind, Pure.pure, Except.pure, pyIn, hm, liftOpt, pyAssert, Json.getVal, Json.lookup, pyTruthy]
    | true =>
      simp [pyAssertKeyTruthy, Bind.bind, Except.bind, Pure.pure, Except.pure, pyIn, hm, liftOpt, pyIndex, Json.getVal, Json.lookup, pyTruthy]
  | str s =>
    cases hm : strContains s k with
    | false =>
      simp [pyAssertKeyTruthy, Bind.bind, Except.bind, Pure.pure, Except.pure, pyIn, hm, liftOpt, pyAssert, Json.getVal, Json.lookup, pyTruthy]
    | true =>
      simp [pyAssertKeyTruthy, Bind.bind, Except.bind, Pure.pure, Except.pure, pyIn, hm, liftOpt, pyIndex, Json.getVal, Json.lookup, pyTruthy]
  | null => simp [pyAssertKeyTruthy, Bind.bind, Except.bind, Pure.pure, Except.pure, pyIn, liftOpt, Json.getVal, Json.lookup, pyTruthy]
  | bool b => simp [pyAssertKeyTruthy, Bind.bind, Except.bind, Pure.pure, Except.pure, pyIn, liftOpt, Json.getVal, Json.lookup, pyTruthy]
  | num n => simp [pyAssertKeyTruthy, Bind.bind, Except.bind, Pure.pure, Except.pure, pyIn, liftOpt, Json.getVal, Json.lookup, pyTruthy]

theorem tc001_cleanup_ok (d : Option Json) (r : HttpResult) :
    tc001_cleanup d r = .ok () := by
  simp only [tc001_cleanup]
  split
  · cases r <;> rfl
  · rfl

theorem bind_ok_elim {α β : Type} {a : Except PyErr α} {f : α → Except PyErr β} {u : β}
    (h : (a >>= f) = .ok u) : ∃ x, a = .ok x ∧ f x = .ok u :=
  (bind_ok_iff a f u).mp h

theorem pyGet_obj {j : Json} (h : j.isObj = true) (k : String) :
    pyGet j k = .ok (j.getVal k) := by
  cases j <;> simp_all [pyGet, Json.isObj]

/-- C1: the TC001 script finishes without assertion failure (completes
cleanly) exactly when both POSTs return 201, the first body carries a
truthy `id`, and the second body's `id` equals the first's. -/
theorem tc001_accepts_iff (b : TC001Behavior) :
    test_create_order_with_idempotency_support b = .ok () ↔ tc001_accepting b := by
  unfold test_create_order_with_idempotency_support
  rw [tc001_cleanup_ok]
  show tc001_try b = .ok () ↔ _
  cases hr1 : b.r1 with
  | exc => simp [tc001_try, hr1, tc001_accepting]
  | resp r1 =>
    cases hr2 : b.r2 with
    | exc =>
      simp only [tc001_try, hr1, hr2, tc001_accepting, bind_ok_iff, pyAssert_ok_iff]
      simp
    | resp r2 =>
      simp only [tc001_try, hr1, hr2, tc001_accepting]
      constructor
      · intro h
        obtain ⟨x1, ha1, h⟩ := bind_ok_elim h
        obtain ⟨j1, hj1, h⟩ := bind_ok_elim h
        obtain ⟨x2, ha2, h⟩ := bind_ok_elim h
        obtain ⟨x3, ha3, h⟩ := bind_ok_elim h
        obtain ⟨j2, hj2, h⟩ := bind_ok_elim h
        obtain ⟨v2, hv2, h⟩ := bind_ok_elim h
        obtain ⟨v1, hv1, h⟩ := bind_ok_elim h
        have hs1 : r1.status = 201 := by
          have := (pyAssert_ok_iff _).mp ha1
          simpa using this
        have hs2 : r2.status = 201 := by
          have := (pyAssert_ok_iff _).mp ha3
          simpa using this
        have hb1 : r1.body = some j1 := (respJson_ok_iff r1 j1).mp hj1
        have hb2 : r2.body = some j2 := (respJson_ok_iff r2 j2).mp hj2
        have htr : pyTruthy (j1.getVal "id") = true := (pyAssertKeyTruthy_ok_iff j1 "id").mp ha2
        have hgv2 := (pyGet_ok_iff j2 "id" v2).mp hv2
        have hgv1 := (pyGet_ok_iff j1 "id" v1).mp hv1
        have heq : v2 = v1 := by
          have := (pyAssert_ok_iff _).mp h
          simpa using this
        refine ⟨hs1, hs2, j1, j2, hb1, hb2, htr, ?_⟩
        rw [← hgv2.2, ← hgv1.2, heq]
      · rintro ⟨hs1, hs2, j1, j2, hb1, hb2, htr, heq⟩
        have hobj1 : j1.isObj = true := isObj_of_truthy_getVal htr
        have hobj2 : j2.isObj = true := by
          refine @isObj_of_truthy_getVal _ "id" ?_
          rw [heq]; exact htr
        have hkt : pyAssertKeyTruthy j1 "id" = .ok () := (pyAssertKeyTruthy_ok_iff j1 "id").mpr htr
        simp [hs1, hs2, hb1, hb2, respJson, hkt, pyGet_obj hobj1, pyGet_obj hobj2,
          pyAssert, heq, Bind.bind, Except.bind]

/-- Concrete witness for C1: a behavior where both creations return 201
with the same id is accepted. -/
theorem tc001_accepts_iff_witness :
    test_create_order_with_idempotency_support
      { r1 := .resp ⟨201, some (.obj [("id", .str "ord-1")])⟩,
        r2 := .resp ⟨201, some (.obj [("id", .str "ord-1")])⟩,
        rdel := .exc } = .ok () := by
  apply (tc001_accepts_iff _).mpr
  refine ⟨rfl, rfl, _, _, rfl, rfl, ?_, ?_⟩ <;> rfl

/-! ## TC002 — beats store filtering and search
(`__tests__/testsprite/TC002_beats_store_filtering_and_search.py`)

For each of six filter dictionaries the script sends
`GET /api/beats?...`, asserts a 200 `{beats: [...]}` response, and for
every returned beat asserts each supplied filter predicate. -/

/-- One filter dictionary sent as query parameters (absent key = `none`). -/
structure BeatFilters where
  genre : Option String
  minBPM : Option Int
  maxBPM : Option Int
  minPrice : Option Int
  maxPrice : Option Int
  search : Option String
deriving DecidableEq

/-- The six filter combinations in the script's `filter_tests` list. -/
def filter_tests : List BeatFilters :=
  [⟨some "hip-hop", none, none, none, none, none⟩,
   ⟨some "electronic", none, none, none, none, none⟩,
   ⟨none, some 80, some 120, none, none, none⟩,
   ⟨none, none, none, some 10, some 30, none⟩,
   ⟨none, none, none, none, none, some "summer"⟩,
   ⟨some "hip-hop", some 90, some 110, some 15, some 40, some "party"⟩]

/-- Python `.lower()` on a value expected to be a string (`AttributeError`
otherwise). -/
def asStrLower : Json → Except PyErr String
  | .str s => .ok (strLower s)
  | _ => .error .exc

/-- Python numeric coercion used by `>=`/`<=` against an int: numbers
compare as themselves, bools as 0/1, everything else raises `TypeError`. -/
def asPyNum : Json → Option Int
  | .num n => some n
  | .bool b => some (if b then 1 else 0)
  | _ => none

/-- Python `v >= k` for int `k`. -/
def pyGE (v : Json) (k : Int) : Except PyErr Bool :=
  match asPyNum v with
  | some n => .ok (decide (k ≤ n))
  | none => .error .exc

/-- Python `v <= k` for int `k`. -/
def pyLE (v : Json) (k : Int) : Except PyErr Bool :=
  match asPyNum v with
  | some n => .ok (decide (n ≤ k))
  | none => .error .exc

/-- Python `v is not None`. -/
def isNotNone : Json → Bool
  | .null => false
  | _ => true

/-- The `if "genre" in filters` block of the TC002 loop body. -/
def tc002_genreCheck (og : Option String) (beat : Json) : PyResult :=
  match og with
  | some g => do
    let bg ← pyGetD beat "genre" (.str "")
    let bgs ← asStrLower bg
    pyAssert (strLower g == bgs)
  | none => pure ()

/-- An `assert beat.get(fld) is not None; assert beat.get(fld) >= k`
block (the `minBPM`/`minPrice` cases). -/
def tc002_boundGE (o : Option Int) (fld : String) (beat : Json) : PyResult :=
  match o with
  | some k => do
    let v ← pyGet beat fld
    pyAssert (isNotNone v)
    let c ← pyGE v k
    pyAssert c
  | none => pure ()

/-- The `maxBPM`/`maxPrice` cases (`<=`). -/
def tc002_boundLE (o : Option Int) (fld : String) (beat : Json) : PyResult :=
  match o with
  | some k => do
    let v ← pyGet beat fld
    pyAssert (isNotNone v)
    let c ← pyLE v k
    pyAssert c
  | none => pure ()

/-- The `if "search" in filters` block. -/
def tc002_searchCheck (ot : Option String) (beat : Json) : PyResult :=
  match ot with
  | some t => do
    let tv ← pyGetD beat "title" (.str "")
    let ts ← asStrLower tv
    let dv ← pyGetD beat "description" (.str "")
    let ds ← asStrLower dv
    pyAssert (strContains ts (strLower t) || strContains ds (strLower t))
  | none => pure ()

/-- The per-beat assertion block of the TC002 loop body. -/
def tc002_beatCheck (f : BeatFilters) (beat : Json) : PyResult := do
  tc002_genreCheck f.genre beat
  tc002_boundGE f.minBPM "bpm" beat
  tc002_boundLE f.maxBPM "bpm" beat
  tc002_boundGE f.minPrice "price" beat
  tc002_boundLE f.maxPrice "price" beat
  tc002_searchCheck f.search beat

/-- The response-structure assertions of the TC002 loop (status 200,
valid JSON, object, `beats` key, list), returning the beats list. -/
def tc002_structCheck (r : HttpResult) : Except PyErr (List Json) :=
  match r with
  | .exc => .error .exc
  | .resp rr => do
    pyAssert (rr.status == 200)
    let data ← respJson rr
    pyAssert data.isObj
    let m ← liftOpt (pyIn "beats" data)
    pyAssert m
    match data.getVal "beats" with
    | .arr xs => pure xs
    | _ => .error .assertFail

/-- The per-beat loop over the returned list. -/
def tc002_checkBeats (f : BeatFilters) : List Json → PyResult
  | [] => .ok ()
  | beat :: rest => do
    tc002_beatCheck f beat
    tc002_checkBeats f rest

/-- One iteration of the TC002 outer loop. -/
def tc002_queryStep (f : BeatFilters) (r : HttpResult) : PyResult := do
  let beats ← tc002_structCheck r
  tc002_checkBeats f beats

def tc002_run (api : BeatFilters → HttpResult) : List BeatFilters → PyResult
  | [] => .ok ()
  | f :: fs => do
    tc002_queryStep f (api f)
    tc002_run api fs

/-- The whole TC002 script body: the outer loop over `filter_tests`
against an API behavior `api`. -/
def test_beats_store_filtering_and_search (api : BeatFilters → HttpResult) : PyResult :=
  tc002_run api filter_tests

/-- The raw string content of field `k` as the script's
`beat.get(k, "")` sees it: missing ⇒ `""`, a string ⇒ itself,
any other value ⇒ undefined (the script would crash on `.lower()`). -/
def fieldStrD (beat : Json) (k : String) : Option String :=
  match beat.lookup k with
  | none => some ""
  | some (.str s) => some s
  | some _ => none

/-- The filter predicates claim C2 states for one returned beat: genre
equal ignoring case, BPM and price within the inclusive bounds, search
term a case-insensitive substring of title or description. -/
def tc002_claimPred (f : BeatFilters) (beat : Json) : Prop :=
  (∀ g, f.genre = some g →
    ∃ s, beat.lookup "genre" = some (.str s) ∧ strLower s = strLower g) ∧
  (∀ k, f.minBPM = some k → ∃ n, asPyNum (beat.getVal "bpm") = some n ∧ k ≤ n) ∧
  (∀ k, f.maxBPM = some k → ∃ n, asPyNum (beat.getVal "bpm") = some n ∧ n ≤ k) ∧
  (∀ k, f.minPrice = some k → ∃ n, asPyNum (beat.getVal "price") = some n ∧ k ≤ n) ∧
  (∀ k, f.maxPrice = some k → ∃ n, asPyNum (beat.getVal "price") = some n ∧ n ≤ k) ∧
  (∀ t, f.search = some t → ∃ ts ds, fieldStrD beat "title" = some ts ∧
    fieldStrD beat "description" = some ds ∧
    (strContains (strLower ts) (strLower t) = true ∨ strContains (strLower ds) (strLower t) = true))

/-! Supporting lemmas for C2/C10. -/

theorem pyGetD_ok_iff (j : Json) (k : String) (d v : Json) :
    pyGetD j k d = .ok v ↔ j.isObj = true ∧ v = (j.lookup k).getD d := by
  cases j <;> simp [pyGetD, Json.isObj, eq_comm]

theorem asStrLower_ok_iff (v : Json) (s : String) :
    asStrLower v = .ok s ↔ ∃ s₀, v = .str s₀ ∧ s = strLower s₀ := by
  cases v <;> simp [asStrLower, eq_comm]

theorem pyGE_ok_iff (v : Json) (k : Int) (c : Bool) :
    pyGE v k = .ok c ↔ ∃ n, asPyNum v = some n ∧ c = decide (k ≤ n) := by
  cases h : asPyNum v <;> simp [pyGE, h, eq_comm]

theorem pyLE_ok_iff (v : Json) (k : Int) (c : Bool) :
    pyLE v k = .ok c ↔ ∃ n, asPyNum v = some n ∧ c = decide (n ≤ k) := by
  cases h : asPyNum v <;> simp [pyLE, h, eq_comm]

theorem tc002_genreCheck_ok {g : String} {beat : Json}
    (h : tc002_genreCheck (some g) beat = .ok ()) (hg : strLower g ≠ "") :
    ∃ s, beat.lookup "genre" = some (.str s) ∧ strLower s = strLower g := by
  unfold tc002_genreCheck at h
  obtain ⟨bg, hbg, h⟩ := bind_ok_elim h
  obtain ⟨bgs, hbgs, h⟩ := bind_ok_elim h
  obtain ⟨hobj, hbgv⟩ := (pyGetD_ok_iff _ _ _ _).mp hbg
  obtain ⟨s₀, hs₀, hlow⟩ := (asStrLower_ok_iff _ _).mp hbgs
  have heq : strLower g = bgs := by
    have := (pyAssert_ok_iff _).mp h
    simpa using this
  cases hl : beat.lookup "genre" with
  | none =>
    exfalso
    rw [hl] at hbgv
    simp at hbgv
    rw [hbgv] at hs₀
    injection hs₀ with hs₀'
    apply hg
    rw [heq, hlow, ← hs₀']
    decide
  | some w =>
    rw [hl] at hbgv
    simp at hbgv
    have hw : w = Json.str s₀ := hbgv.symm.trans hs₀
    exact ⟨s₀, by rw [hw], (heq.trans hlow).symm⟩

theorem tc002_boundGE_ok {k : Int} {fld : String} {beat : Json}
    (h : tc002_boundGE (some k) fld beat = .ok ()) :
    ∃ n, asPyNum (beat.getVal fld) = some n ∧ k ≤ n := by
  unfold tc002_boundGE at h
  obtain ⟨v, hv, h⟩ := bind_ok_elim h
  obtain ⟨x1, hx1, h⟩ := bind_ok_elim h
  obtain ⟨c, hc, h⟩ := bind_ok_elim h
  obtain ⟨hobj, hvv⟩ := (pyGet_ok_iff _ _ _).mp hv
  obtain ⟨n, hn, hcv⟩ := (pyGE_ok_iff _ _ _).mp hc
  have : c = true := by
    have := (pyAssert_ok_iff _).mp h
    simpa using this
  rw [this] at hcv
  refine ⟨n, by rw [← hvv]; exact hn, of_decide_eq_true hcv.symm⟩

theorem tc002_boundLE_ok {k : Int} {fld : String} {beat : Json}
    (h : tc002_boundLE (some k) fld beat = .ok ()) :
    ∃ n, asPyNum (beat.getVal fld) = some n ∧ n ≤ k := by
  unfold tc002_boundLE at h
  obtain ⟨v, hv, h⟩ := bind_ok_elim h
  obtain ⟨x1, hx1, h⟩ := bind_ok_elim h
  obtain ⟨c, hc, h⟩ := bind_ok_elim h
  obtain ⟨hobj, hvv⟩ := (pyGet_ok_iff _ _ _).mp hv
  obtain ⟨n, hn, hcv⟩ := (pyLE_ok_iff _ _ _).mp hc
  have : c = true := by
    have := (pyAssert_ok_iff _).mp h
    simpa using this
  rw [this] at hcv
  refine ⟨n, by rw [← hvv]; exact hn, of_decide_eq_true hcv.symm⟩

theorem fieldStrD_of_lower {beat : Json} {fld : String} {tv : Json} {ts : String}
    (_hobj : beat.isObj = true)
    (htv : tv = (beat.lookup fld).getD (.str ""))
    (hs : ∃ s₀, tv = .str s₀ ∧ ts = strLower s₀) :
    ∃ t₀, fieldStrD beat fld = some t₀ ∧ ts = strLower t₀ := by
  obtain ⟨s₀, hs₀, hlow⟩ := hs
  cases hl : beat.lookup fld with
  | none =>
    rw [hl] at htv
    simp at htv
    rw [htv] at hs₀
    cases hs₀
    exact ⟨"", by simp [fieldStrD, hl], hlow⟩
  | some w =>
    rw [hl] at htv
    simp at htv
    rw [htv] at hs₀
    exact ⟨s₀, by simp [fieldStrD, hl, hs₀], hlow⟩

theorem tc002_searchCheck_ok {t : String} {beat : Json}
    (h : tc002_searchCheck (some t) beat = .ok ()) :
    ∃ ts ds, fieldStrD beat "title" = some ts ∧
      fieldStrD beat "description" = some ds ∧
      (strContains (strLower ts) (strLower t) = true ∨ strContains (strLower ds) (strLower t) = true) := by
  unfold tc002_searchCheck at h
  obtain ⟨tv, htv, h⟩ := bind_ok_elim h
  obtain ⟨ts, hts, h⟩ := bind_ok_elim h
  obtain ⟨dv, hdv, h⟩ := bind_ok_elim h
  obtain ⟨ds, hds, h⟩ := bind_ok_elim h
  obtain ⟨hobj, htvv⟩ := (pyGetD_ok_iff _ _ _ _).mp htv
  obtain ⟨_, hdvv⟩ := (pyGetD_ok_iff _ _ _ _).mp hdv
  obtain ⟨t₀, hft, hlt⟩ := fieldStrD_of_lower hobj htvv ((asStrLower_ok_iff _ _).mp hts)
  obtain ⟨d₀, hfd, hld⟩ := fieldStrD_of_lower hobj hdvv ((asStrLower_ok_iff _ _).mp hds)
  have hor : (strContains ts (strLower t) || strContains ds (strLower t)) = true := by
    have := (pyAssert_ok_iff _).mp h
    simpa using this
  rw [Bool.or_eq_true] at hor
  exact ⟨t₀, d₀, hft, hfd, by rw [← hlt, ← hld]; exact hor⟩

theorem tc002_run_ok {api : BeatFilters → HttpResult} :
    ∀ {fs : List BeatFilters}, tc002_run api fs = .ok () →
      ∀ f ∈ fs, tc002_queryStep f (api f) = .ok () := by
  intro fs
  induction fs with
  | nil => intro _ f hf; cases hf
  | cons f0 rest ih =>
    intro h f hf
    unfold tc002_run at h
    obtain ⟨x, hx, h⟩ := bind_ok_elim h
    rcases List.mem_cons.mp hf with hf | hf
    · rw [hf]; cases x; exact hx
    · exact ih h f hf

theorem tc002_queryStep_ok {f : BeatFilters} {r : HttpResult}
    (h : tc002_queryStep f r = .ok ()) :
    ∃ xs, tc002_structCheck r = .ok xs ∧ tc002_checkBeats f xs = .ok () := by
  unfold tc002_queryStep at h
  obtain ⟨xs, hxs, h⟩ := bind_ok_elim h
  exact ⟨xs, hxs, h⟩

theorem tc002_structCheck_beats {rr : HttpResp} {xs : List Json} {j : Json}
    (h : tc002_structCheck (.resp rr) = .ok xs) (hb : rr.body = some j) :
    j.getVal "beats" = .arr xs := by
  unfold tc002_structCheck at h
  obtain ⟨x1, hx1, h⟩ := bind_ok_elim h
  obtain ⟨data, hdata, h⟩ := bind_ok_elim h
  obtain ⟨x2, hx2, h⟩ := bind_ok_elim h
  obtain ⟨m, hm, h⟩ := bind_ok_elim h
  obtain ⟨x3, hx3, h⟩ := bind_ok_elim h
  have hdj : data = j := by
    have := (respJson_ok_iff rr data).mp hdata
    rw [this] at hb
    exact (Option.some_inj.mp hb)
  rw [hdj] at h
  cases hv : j.getVal "beats" with
  | arr ys =>
    rw [hv] at h
    simp [Pure.pure, Except.pure] at h
    rw [h]
  | null => rw [hv] at h; cases h
  | bool b => rw [hv] at h; cases h
  | num n => rw [hv] at h; cases h
  | str s => rw [hv] at h; cases h
  | obj fs => rw [hv] at h; cases h

theorem tc002_checkBeats_ok {f : BeatFilters} :
    ∀ {xs : List Json}, tc002_checkBeats f xs = .ok () →
      ∀ beat ∈ xs, tc002_beatCheck f beat = .ok () := by
  intro xs
  induction xs with
  | nil => intro _ beat hb; cases hb
  | cons b0 rest ih =>
    intro h beat hb
    unfold tc002_checkBeats at h
    obtain ⟨x, hx, h⟩ := bind_ok_elim h
    rcases List.mem_cons.mp hb with hb | hb
    · rw [hb]; cases x; exact hx
    · exact ih h beat hb

theorem tc002_beatCheck_parts {f : BeatFilters} {beat : Json}
    (h : tc002_beatCheck f beat = .ok ()) :
    tc002_genreCheck f.genre beat = .ok () ∧
    tc002_boundGE f.minBPM "bpm" beat = .ok () ∧
    tc002_boundLE f.maxBPM "bpm" beat = .ok () ∧
    tc002_boundGE f.minPrice "price" beat = .ok () ∧
    tc002_boundLE f.maxPrice "price" beat = .ok () ∧
    tc002_searchCheck f.search beat = .ok () := by
  unfold tc002_beatCheck at h
  obtain ⟨x1, h1, h⟩ := bind_ok_elim h
  obtain ⟨x2, h2, h⟩ := bind_ok_elim h
  obtain ⟨x3, h3, h⟩ := bind_ok_elim h
  obtain ⟨x4, h4, h⟩ := bind_ok_elim h
  obtain ⟨x5, h5, h⟩ := bind_ok_elim h
  cases x1; cases x2; cases x3; cases x4; cases x5
  exact ⟨h1, h2, h3, h4, h5, h⟩

/-- C2: whenever the TC002 script accepts an API behavior, then for each
of the six filter queries it sends and every beat in the returned
`beats` list, all supplied filter predicates hold for that beat. -/
theorem tc002_accept_only_if_filters_hold
    (api : BeatFilters → HttpResult)
    (h : test_beats_store_filtering_and_search api = .ok ())
    (f : BeatFilters) (hf : f ∈ filter_tests)
    (rr : HttpResp) (j : Json) (bs : List Json)
    (hapi : api f = .resp rr) (hbody : rr.body = some j)
    (hbeats : j.getVal "beats" = .arr bs) :
    ∀ beat ∈ bs, tc002_claimPred f beat := by
  intro beat hbeat
  have hstep := tc002_run_ok h f hf
  rw [hapi] at hstep
  obtain ⟨xs, hsc, hcb⟩ := tc002_queryStep_ok hstep
  have hxs : j.getVal "beats" = .arr xs := tc002_structCheck_beats hsc hbody
  have hbx : bs = xs := by
    rw [hxs] at hbeats
    exact Json.arr.inj hbeats.symm
  rw [hbx] at hbeat
  have hb := tc002_checkBeats_ok hcb beat hbeat
  obtain ⟨hg, hminb, hmaxb, hminp, hmaxp, hsearch⟩ := tc002_beatCheck_parts hb
  refine ⟨?_, ?_, ?_, ?_, ?_, ?_⟩
  · intro g hgf
    have hgl : strLower g ≠ "" := by
      simp only [filter_tests, List.mem_cons, List.not_mem_nil, or_false] at hf
      rcases hf with hf | hf | hf | hf | hf | hf
      · subst hf; simp at hgf; subst hgf; decide
      · subst hf; simp at hgf; subst hgf; decide
      · subst hf; simp at hgf
      · subst hf; simp at hgf
      · subst hf; simp at hgf
      · subst hf; simp at hgf; subst hgf; decide
    rw [hgf] at hg
    exact tc002_genreCheck_ok hg hgl
  · intro k hk; rw [hk] at hminb; exact tc002_boundGE_ok hminb
  · intro k hk; rw [hk] at hmaxb; exact tc002_boundLE_ok hmaxb
  · intro k hk; rw [hk] at hminp; exact tc002_boundGE_ok hminp
  · intro k hk; rw [hk] at hmaxp; exact tc002_boundLE_ok hmaxp
  · intro t ht; rw [ht] at hsearch; exact tc002_searchCheck_ok hsearch

/-- Concrete witness for C2: a behavior whose beats all satisfy the
filters is accepted, and the theorem's conclusions hold on it. -/
theorem tc002_accept_only_if_filters_hold_witness :
    tc002_claimPred ⟨some "hip-hop", none, none, none, none, none⟩
      (Json.obj [("genre", .str "hip-hop"), ("bpm", .num 100), ("price", .num 20),
        ("title", .str "summer party beat"), ("description", .str "hot")]) := by
  exact tc002_accept_only_if_filters_hold
    (fun f => if f = ⟨some "hip-hop", none, none, none, none, none⟩
      then .resp ⟨200, some (.obj [("beats", .arr [.obj [("genre", .str "hip-hop"),
        ("bpm", .num 100), ("price", .num 20),
        ("title", .str "summer party beat"), ("description", .str "hot")]])])⟩
      else .resp ⟨200, some (.obj [("beats", .arr [])])⟩)
    (by rfl)
    ⟨some "hip-hop", none, none, none, none, none⟩
    (by decide)
    ⟨200, some (.obj [("beats", .arr [.obj [("genre", .str "hip-hop"),
        ("bpm", .num 100), ("price", .num 20),
        ("title", .str "summer party beat"), ("description", .str "hot")]])])⟩
    (.obj [("beats", .arr [.obj [("genre", .str "hip-hop"),
        ("bpm", .num 100), ("price", .num 20),
        ("title", .str "summer party beat"), ("description", .str "hot")]])])
    [Json.obj [("genre", .str "hip-hop"), ("bpm", .num 100), ("price", .num 20),
        ("title", .str "summer party beat"), ("description", .str "hot")]]
    (by rfl) (by rfl) (by rfl)
    (Json.obj [("genre", .str "hip-hop"), ("bpm", .num 100), ("price", .num 20),
        ("title", .str "summer party beat"), ("description", .str "hot")])
    (List.mem_cons_self _ _)

/-- C10: an API that always answers 200 with body `{"beats": []}` passes
the whole TC002 script — the per-beat assertions are vacuous. -/
theorem tc002_empty_beats_accepted :
    test_beats_store_filtering_and_search
      (fun _ => .resp ⟨200, some (.obj [("beats", .arr [])])⟩) = .ok () := by
  rfl

/-! ## TC003 — order retrieval authorization
(`testsprite_tests/TC003_get_order_by_id_authorization_and_existence.py`)

The script creates an order, then asserts: GET with the owner token on
that order returns 200 with matching `id`; GET with the other token
returns 403; GET on the all-zero UUID returns 404.  A `finally` block
best-effort-deletes the order. -/

/-- HTTP results for the requests the TC003 script can send. -/
structure TC003Behavior where
  rCreate : HttpResult
  rOwner : HttpResult
  rForbidden : HttpResult
  rMissing : HttpResult
  rDelete : HttpResult
deriving DecidableEq

/-- The `try` suite of `test_get_order_by_id_authorization_and_existence`. -/
def tc003_try (b : TC003Behavior) : PyResult :=
  match b.rCreate with
  | .exc => .error .exc
  | .resp rc => do
    pyAssert (rc.status == 201)
    let order_data ← respJson rc
    let order_id ← pyGet order_data "id"
    pyAssert (pyTruthy order_id)
    match b.rOwner with
    | .exc => .error .exc
    | .resp ro => do
      pyAssert (ro.status == 200)
      let resp_json ← respJson ro
      let v ← pyGet resp_json "id"
      pyAssert (v == order_id)
      match b.rForbidden with
      | .exc => .error .exc
      | .resp rf => do
        pyAssert (rf.status == 403)
        match b.rMissing with
        | .exc => .error .exc
        | .resp rm => pyAssert (rm.status == 404)

/-- The value bound to `order_id` (initialized `None` before the `try`)
when the `finally` suite runs. -/
def tc003_order_id (b : TC003Behavior) : Json :=
  match b.rCreate with
  | .exc => .null
  | .resp rc =>
    if rc.status == 201 then
      match rc.body with
      | some d =>
        match d with
        | .obj _ => d.getVal "id"
        | _ => .null
      | none => .null
    else .null

/-- The `finally` suite: delete the order if `order_id` is truthy, with
all exceptions swallowed. -/
def tc003_cleanup (order_id : Json) (rdel : HttpResult) : PyResult :=
  if pyTruthy order_id then
    match rdel with
    | .exc => .ok ()
    | .resp _ => .ok ()
  else .ok ()

/-- The whole TC003 script body. -/
def test_get_order_by_id_authorization_and_existence (b : TC003Behavior) : PyResult :=
  pyTryFinally (tc003_try b) (tc003_cleanup (tc003_order_id b) b.rDelete)

/-- The three retrieval conditions claim C3 states, given the body `j` of
the creation response: owner GET 200 with the created `id`, non-owner GET
403, missing-order GET 404. -/
def tc003_getChecks (b : TC003Behavior) (j : Json) : Prop :=
  (∃ ro jo, b.rOwner = .resp ro ∧ ro.status = 200 ∧ ro.body = some jo ∧
    jo.getVal "id" = j.getVal "id") ∧
  (∃ rf, b.rForbidden = .resp rf ∧ rf.status = 403) ∧
  (∃ rm, b.rMissing = .resp rm ∧ rm.status = 404)

theorem tc003_cleanup_ok (oid : Json) (r : HttpResult) :
    tc003_cleanup oid r = .ok () := by
  simp only [tc003_cleanup]
  split
  · cases r <;> rfl
  · rfl

/-- C3: given that the creation step succeeded (201 with a truthy `id`),
the TC003 script accepts the behavior iff the owner GET returns 200 with
the same `id`, the non-owner GET returns 403, and the missing-order GET
returns 404. -/
theorem tc003_accepts_iff (b : TC003Behavior) (rc : HttpResp) (j : Json)
    (hc : b.rCreate = .resp rc) (hs : rc.status = 201) (hb : rc.body = some j)
    (hid : pyTruthy (j.getVal "id") = true) :
    test_get_order_by_id_authorization_and_existence b = .ok () ↔ tc003_getChecks b j := by
  have hobjj : j.isObj = true := isObj_of_truthy_getVal hid
  unfold test_get_order_by_id_authorization_and_existence
  rw [tc003_cleanup_ok]
  show tc003_try b = .ok () ↔ _
  constructor
  · intro h
    rw [tc003_try, hc] at h
    obtain ⟨x1, ha1, h⟩ := bind_ok_elim h
    obtain ⟨d, hd, h⟩ := bind_ok_elim h
    obtain ⟨oid, hoid, h⟩ := bind_ok_elim h
    obtain ⟨x2, ha2, h⟩ := bind_ok_elim h
    have hdj : d = j := by
      have := (respJson_ok_iff rc d).mp hd
      rw [this] at hb
      exact Option.some_inj.mp hb
    subst hdj
    obtain ⟨_, hoidv⟩ := (pyGet_ok_iff _ _ _).mp hoid
    cases hro : b.rOwner with
    | exc => rw [hro] at h; cases h
    | resp ro =>
      rw [hro] at h
      obtain ⟨x3, ha3, h⟩ := bind_ok_elim h
      obtain ⟨jo, hjo, h⟩ := bind_ok_elim h
      obtain ⟨v, hv, h⟩ := bind_ok_elim h
      obtain ⟨x4, ha4, h⟩ := bind_ok_elim h
      obtain ⟨_, hvv⟩ := (pyGet_ok_iff _ _ _).mp hv
      have hveq : v = oid := by
        have := (pyAssert_ok_iff _).mp ha4
        simpa using this
      cases hrf : b.rForbidden with
      | exc => rw [hrf] at h; cases h
      | resp rf =>
        rw [hrf] at h
        obtain ⟨x5, ha5, h⟩ := bind_ok_elim h
        cases hrm : b.rMissing with
        | exc => rw [hrm] at h; cases h
        | resp rm =>
          rw [hrm] at h
          refine ⟨⟨ro, jo, hro, ?_, (respJson_ok_iff ro jo).mp hjo, ?_⟩,
            ⟨rf, hrf, ?_⟩, ⟨rm, hrm, ?_⟩⟩
          · simpa using (pyAssert_ok_iff _).mp ha3
          · rw [← hvv, hveq, hoidv]
          · simpa using (pyAssert_ok_iff _).mp ha5
          · simpa using (pyAssert_ok_iff _).mp h
  · rintro ⟨⟨ro, jo, hro, hso, hbo, hido⟩, ⟨rf, hrf, hsf⟩, ⟨rm, hrm, hsm⟩⟩
    have hobjo : jo.isObj = true := by
      refine @isObj_of_truthy_getVal _ "id" ?_
      rw [hido]; exact hid
    rw [tc003_try, hc]
    simp [hs, hb, respJson, pyGet_obj hobjj, pyGet_obj hobjo, hid, hro, hso, hbo, hido,
      pyAssert, Bind.bind, Except.bind, hrf, hsf, hrm, hsm]

/-- Concrete witness for C3: a fully conforming behavior is accepted. -/
theorem tc003_accepts_iff_witness :
    test_get_order_by_id_authorization_and_existence
      { rCreate := .resp ⟨201, some (.obj [("id", .str "o-1")])⟩,
        rOwner := .resp ⟨200, some (.obj [("id", .str "o-1")])⟩,
        rForbidden := .resp ⟨403, none⟩,
        rMissing := .resp ⟨404, none⟩,
        rDelete := .exc } = .ok () := by
  apply (tc003_accepts_iff _ ⟨201, some (.obj [("id", .str "o-1")])⟩
    (.obj [("id", .str "o-1")]) rfl rfl rfl rfl).mpr
  exact ⟨⟨_, _, rfl, rfl, rfl, rfl⟩, ⟨_, rfl, rfl⟩, ⟨_, rfl, rfl⟩⟩

/-! ## TC010 — payment webhook signature validation
(`testsprite_tests/TC010_handle_payment_webhook_signature_validation.py`)

Two POSTs to `/api/payments/webhook`: one with the valid
`X-Svix-Signature` header (expect 200), one with the invalid header
(expect 400).  A transport exception on either request is converted to
`assert False` by the surrounding `except requests.RequestException`. -/

/-- HTTP results for the two webhook POSTs. -/
structure TC010Behavior where
  rValid : HttpResult
  rInvalid : HttpResult
deriving DecidableEq

/-- The whole TC010 script body. -/
def test_handle_payment_webhook_signature_validation (b : TC010Behavior) : PyResult := do
  (match b.rValid with
   | .exc => .error .assertFail
   | .resp r => pyAssert (r.status == 200))
  (match b.rInvalid with
   | .exc => .error .assertFail
   | .resp r => pyAssert (r.status == 400))

/-- The acceptance condition claim C4 states: valid-signature POST
returns 200 and invalid-signature POST returns 400, with no transport
exception on either. -/
def tc010_accepting (b : TC010Behavior) : Prop :=
  ∃ r1 r2, b.rValid = .resp r1 ∧ r1.status = 200 ∧
    b.rInvalid = .resp r2 ∧ r2.status = 400

/-- C4: the webhook-validation script accepts a behavior iff the valid
signature gets 200 and the invalid signature gets 400; any other pair of
statuses or a transport exception on either request fails it. -/
theorem tc010_accepts_iff (b : TC010Behavior) :
    test_handle_payment_webhook_signature_validation b = .ok () ↔ tc010_accepting b := by
  cases h1 : b.rValid with
  | exc =>
    simp [test_handle_payment_webhook_signature_validation, h1, tc010_accepting,
      Bind.bind, Except.bind]
  | resp r1 =>
    cases h2 : b.rInvalid with
    | exc =>
      simp [test_handle_payment_webhook_signature_validation, h1, h2, tc010_accepting,
        Bind.bind, Except.bind, pyAssert]
      split <;> simp
    | resp r2 =>
      simp only [test_handle_payment_webhook_signature_validation, h1, h2, tc010_accepting]
      constructor
      · intro h
        obtain ⟨x, hx, h⟩ := bind_ok_elim h
        refine ⟨r1, r2, rfl, ?_, rfl, ?_⟩
        · simpa using (pyAssert_ok_iff _).mp hx
        · simpa using (pyAssert_ok_iff _).mp h
      · rintro ⟨r1', r2', he1, hs1, he2, hs2⟩
        injection he1 with he1'
        injection he2 with he2'
        rw [← he1'] at hs1
        rw [← he2'] at hs2
        simp [hs1, hs2, pyAssert, Bind.bind, Except.bind]

/-- Concrete witness exercising the C4 equivalence: statuses 200/400
are accepted. -/
theorem tc010_accepts_iff_witness :
    test_handle_payment_webhook_signature_validation
      { rValid := .resp ⟨200, none⟩, rInvalid := .resp ⟨400, none⟩ } = .ok () :=
  (tc010_accepts_iff _).mpr ⟨_, _, rfl, rfl, rfl, rfl⟩

/-! ## TC004 — order invoice availability
(`testsprite_tests/TC004_get_order_invoice_url_availability.py`)

After creating an order, the script GETs `/api/orders/{id}/invoice` and
accepts either a 200 whose JSON object body has a string `url` starting
with `"http"`, or a 404.  A transport exception is converted to
`assert False` by the surrounding `except RequestException`; a
`ValueError` from `.json()` is not caught. -/

/-- Python `isinstance(v, str) and v.startswith("http")`. -/
def jsonIsHttpUrl : Json → Bool
  | .str s => atFront "http".data s.data
  | _ => false

/-- The invoice-response check of `test_get_order_invoice_url_availability`
(lines 52–61): the GET result is judged as 200-with-url or 404. -/
def tc004_invoice_check (r : HttpResult) : PyResult :=
  match r with
  | .exc => .error .assertFail
  | .resp rr =>
    if rr.status == 200 then do
      let data ← respJson rr
      pyAssert data.isObj
      -- assert "url" in data and isinstance(data["url"], str) and data["url"].startswith("http")
      let m ← liftOpt (pyIn "url" data)
      let c ← if m then (do
          let v ← pyIndex data "url"
          pure (jsonIsHttpUrl v))
        else pure false
      pyAssert c
    else pyAssert (rr.status == 404)

/-- The acceptance condition claim C8 states for the invoice response. -/
def tc004_invoice_accepting (r : HttpResult) : Prop :=
  ∃ rr, r = .resp rr ∧
    ((rr.status = 200 ∧ ∃ j u, rr.body = some j ∧ j.lookup "url" = some (.str u) ∧
        atFront "http".data u.data = true) ∨
      rr.status = 404)

theorem lookup_go_some_of_any {fs : List (String × Json)} {k : String}
    (hm : fs.any (fun p => p.1 == k) = true) :
    ∃ v, Json.lookup.go fs k = some v := by
  cases h : Json.lookup.go fs k with
  | some v => exact ⟨v, rfl⟩
  | none =>
    have := lookup_go_isSome fs k
    rw [hm, h] at this
    cases this

theorem lookup_go_none_of_not_any {fs : List (String × Json)} {k : String}
    (hm : fs.any (fun p => p.1 == k) = false) :
    Json.lookup.go fs k = none := by
  cases h : Json.lookup.go fs k with
  | none => rfl
  | some v =>
    have := lookup_go_isSome fs k
    rw [hm, h] at this
    cases this

/-- C8: the invoice check passes iff the response is a 200 whose object
body carries a string `url` starting with `http`, or exactly a 404. -/
theorem tc004_invoice_accepts_iff (r : HttpResult) :
    tc004_invoice_check r = .ok () ↔ tc004_invoice_accepting r := by
  cases r with
  | exc => simp [tc004_invoice_check, tc004_invoice_accepting]
  | resp rr =>
    simp only [tc004_invoice_check, tc004_invoice_accepting]
    by_cases hs : rr.status = 200
    · rw [if_pos (by simpa using hs)]
      cases hb : rr.body with
      | none =>
        constructor
        · intro h
          obtain ⟨data, hdata, h⟩ := bind_ok_elim h
          rw [respJson_ok_iff] at hdata
          rw [hb] at hdata
          cases hdata
        · rintro ⟨rr', hrr, h⟩
          injection hrr with hrr'
          subst hrr'
          rcases h with ⟨_, j, u, hj, _, _⟩ | h404
          · rw [hb] at hj; cases hj
          · exact absurd (hs.symm.trans h404) (by decide)
      | some data =>
        have hre : respJson rr = .ok data := (respJson_ok_iff rr data).mpr hb
        cases data with
        | obj fs =>
          cases hany : fs.any (fun p => p.1 == "url") with
          | false =>
            have hnone := lookup_go_none_of_not_any hany
            constructor
            · intro h
              simp [hre, Bind.bind, Except.bind, Json.isObj, pyAssert, pyIn, liftOpt,
                hany, Pure.pure, Except.pure] at h
            · rintro ⟨rr', hrr, h⟩
              injection hrr with hrr'
              subst hrr'
              rcases h with ⟨_, j, u, hj, hu, _⟩ | h404
              · rw [hb] at hj
                injection hj with hj'
                subst hj'
                simp only [Json.lookup] at hu
                rw [hnone] at hu
                cases hu
              · exact absurd (hs.symm.trans h404) (by decide)
          | true =>
            obtain ⟨v, hv⟩ := lookup_go_some_of_any hany
            constructor
            · intro h
              simp only [hre, Bind.bind, Except.bind, Json.isObj, pyAssert, pyIn, liftOpt,
                hany, pyIndex, Json.lookup, hv, Pure.pure, Except.pure, if_true] at h
              cases hvv : v with
              | str u =>
                refine ⟨rr, rfl, .inl ⟨hs, .obj fs, u, hb, ?_, ?_⟩⟩
                · simp only [Json.lookup]
                  rw [hv, hvv]
                · rw [hvv] at h
                  simp only [jsonIsHttpUrl] at h
                  split at h
                  next hcond => exact hcond
                  next => cases h
              | null => rw [hvv] at h; simp [jsonIsHttpUrl] at h
              | bool bb => rw [hvv] at h; simp [jsonIsHttpUrl] at h
              | num n => rw [hvv] at h; simp [jsonIsHttpUrl] at h
              | arr xs => rw [hvv] at h; simp [jsonIsHttpUrl] at h
              | obj gs => rw [hvv] at h; simp [jsonIsHttpUrl] at h
            · rintro ⟨rr', hrr, h⟩
              injection hrr with hrr'
              subst hrr'
              rcases h with ⟨_, j, u, hj, hu, hhttp⟩ | h404
              · rw [hb] at hj
                injection hj with hj'
                subst hj'
                have hu' : v = Json.str u := by
                  simp only [Json.lookup] at hu
                  rw [hv] at hu
                  exact Option.some_inj.mp hu
                simp [hre, Bind.bind, Except.bind, Json.isObj, pyAssert, pyIn, liftOpt,
                  hany, pyIndex, Json.lookup, hv, hu', jsonIsHttpUrl, hhttp,
                  Pure.pure, Except.pure]
              · exact absurd (hs.symm.trans h404) (by decide)
        | null =>
          constructor
          · intro h
            simp [hre, Bind.bind, Except.bind, Json.isObj, pyAssert] at h
          · rintro ⟨rr', hrr, h⟩
            injection hrr with hrr'
            subst hrr'
            rcases h with ⟨_, j, u, hj, hu, _⟩ | h404
            · rw [hb] at hj; injection hj with hj'; rw [← hj'] at hu; simp [Json.lookup] at hu
            · exact absurd (hs.symm.trans h404) (by decide)
        | bool bb =>
          constructor
          · intro h
            simp [hre, Bind.bind, Except.bind, Json.isObj, pyAssert] at h
          · rintro ⟨rr', hrr, h⟩
            injection hrr with hrr'
            subst hrr'
            rcases h with ⟨_, j, u, hj, hu, _⟩ | h404
            · rw [hb] at hj; injection hj with hj'; rw [← hj'] at hu; simp [Json.lookup] at hu
            · exact absurd (hs.symm.trans h404) (by decide)
        | num n =>
          constructor
          · intro h
            simp [hre, Bind.bind, Except.bind, Json.isObj, pyAssert] at h
          · rintro ⟨rr', hrr, h⟩
            injection hrr with hrr'
            subst hrr'
            rcases h with ⟨_, j, u, hj, hu, _⟩ | h404
            · rw [hb] at hj; injection hj with hj'; rw [← hj'] at hu; simp [Json.lookup] at hu
            · exact absurd (hs.symm.trans h404) (by decide)
        | str s =>
          constructor
          · intro h
            simp [hre, Bind.bind, Except.bind, Json.isObj, pyAssert] at h
          · rintro ⟨rr', hrr, h⟩
            injection hrr with hrr'
            subst hrr'
            rcases h with ⟨_, j, u, hj, hu, _⟩ | h404
            · rw [hb] at hj; injection hj with hj'; rw [← hj'] at hu; simp [Json.lookup] at hu
            · exact absurd (hs.symm.trans h404) (by decide)
        | arr xs =>
          constructor
          · intro h
            simp [hre, Bind.bind, Except.bind, Json.isObj, pyAssert] at h
          · rintro ⟨rr', hrr, h⟩
            injection hrr with hrr'
            subst hrr'
            rcases h with ⟨_, j, u, hj, hu, _⟩ | h404
            · rw [hb] at hj; injection hj with hj'; rw [← hj'] at hu; simp [Json.lookup] at hu
            · exact absurd (hs.symm.trans h404) (by decide)
    · rw [if_neg (by simpa using hs)]
      constructor
      · intro h
        have h404 : rr.status = 404 := by simpa using (pyAssert_ok_iff _).mp h
        exact ⟨rr, rfl, .inr h404⟩
      · rintro ⟨rr', hrr, h⟩
        injection hrr with hrr'
        subst hrr'
        rcases h with ⟨h200, _⟩ | h404
        · exact absurd h200 hs
        · rw [pyAssert_ok_iff]
          simpa using h404

/-- Concrete witness exercising the C8 equivalence: a plain 404 is
accepted. -/
theorem tc004_invoice_accepts_iff_witness :
    tc004_invoice_check (.resp ⟨404, none⟩) = .ok () :=
  (tc004_invoice_accepts_iff _).mpr ⟨_, rfl, .inr rfl⟩

/-! ## TC006 — reservation creation with valid and invalid data
(`testsprite_tests/TC006_create_reservation_with_valid_and_invalid_data.py`)

Four POSTs to `/api/reservations`: valid payload with valid token
(expect 201 with `id` or `reservationId`), invalid payload (negative
`preferredDuration`, `budget` omitted) with valid token (expect 400),
valid payload with no `Authorization` header (expect 401), valid payload
with an invalid token (expect 401).  The `finally` suite is `pass`. -/

/-- HTTP results for the four reservation POSTs. -/
structure TC006Behavior where
  rValid : HttpResult
  rInvalid : HttpResult
  rNoAuth : HttpResult
  rBadToken : HttpResult
deriving DecidableEq

/-- The `assert "id" in json_response or "reservationId" in json_response`
step of TC006 (short-circuit `or`). -/
def tc006_memberCheck (j : Json) : PyResult := do
  let m1 ← liftOpt (pyIn "id" j)
  let c ← if m1 then pure true else liftOpt (pyIn "reservationId" j)
  pyAssert c

/-- The `reservation_id = json_response.get("id") or
json_response.get("reservationId")` step of TC006 (short-circuit `or`
on truthiness). -/
def tc006_ridStep (j : Json) : Except PyErr Json := do
  let v1 ← pyGet j "id"
  if pyTruthy v1 then pure v1 else pyGet j "reservationId"

/-- The `try` suite of `test_create_reservation_with_valid_and_invalid_data`. -/
def tc006_try (b : TC006Behavior) : PyResult :=
  match b.rValid with
  | .exc => .error .exc
  | .resp r1 => do
    pyAssert (r1.status == 201)
    let json_response ← respJson r1
    tc006_memberCheck json_response
    let _rid ← tc006_ridStep json_response
    match b.rInvalid with
    | .exc => .error .exc
    | .resp r2 => do
      pyAssert (r2.status == 400)
      match b.rNoAuth with
      | .exc => .error .exc
      | .resp r3 => do
        pyAssert (r3.status == 401)
        match b.rBadToken with
        | .exc => .error .exc
        | .resp r4 => pyAssert (r4.status == 401)

/-- The whole TC006 script body (its `finally` suite is just `pass`). -/
def test_create_reservation_with_valid_and_invalid_data (b : TC006Behavior) : PyResult :=
  pyTryFinally (tc006_try b) (.ok ())

/-- Test whether `j` is a JSON object with key `k`. -/
def Json.hasKey (j : Json) (k : String) : Bool := (j.lookup k).isSome

/-- The acceptance condition claim C5 states: valid payload 201 with an
`id` or `reservationId` field, invalid payload 400, and 401 both without
authorization and with an invalid token. -/
def tc006_accepting (b : TC006Behavior) : Prop :=
  (∃ r1 j1, b.rValid = .resp r1 ∧ r1.status = 201 ∧ r1.body = some j1 ∧
    j1.isObj = true ∧ (j1.hasKey "id" = true ∨ j1.hasKey "reservationId" = true)) ∧
  (∃ r2, b.rInvalid = .resp r2 ∧ r2.status = 400) ∧
  (∃ r3, b.rNoAuth = .resp r3 ∧ r3.status = 401) ∧
  (∃ r4, b.rBadToken = .resp r4 ∧ r4.status = 401)

theorem hasKey_obj (fs : List (String × Json)) (k : String) :
    (Json.obj fs).hasKey k = fs.any (fun p => p.1 == k) := by
  rw [Json.hasKey, lookup_go_isSome]
  rfl

theorem tc006_memberCheck_obj_ok {fs : List (String × Json)}
    (h : tc006_memberCheck (.obj fs) = .ok ()) :
    fs.any (fun p => p.1 == "id") = true ∨
      fs.any (fun p => p.1 == "reservationId") = true := by
  unfold tc006_memberCheck at h
  cases hany1 : fs.any (fun p => p.1 == "id") with
  | true => exact .inl rfl
  | false =>
    right
    simp only [pyIn, liftOpt, hany1, Bind.bind, Except.bind, if_false,
      Bool.false_eq_true, Pure.pure, Except.pure] at h
    cases hany2 : fs.any (fun p => p.1 == "reservationId") with
    | true => rfl
    | false =>
      rw [hany2] at h
      simp [pyAssert] at h

theorem tc006_memberCheck_obj_of {fs : List (String × Json)}
    (h : fs.any (fun p => p.1 == "id") = true ∨
      fs.any (fun p => p.1 == "reservationId") = true) :
    tc006_memberCheck (.obj fs) = .ok () := by
  unfold tc006_memberCheck
  cases hany1 : fs.any (fun p => p.1 == "id") with
  | true =>
    simp [pyIn, liftOpt, hany1, Bind.bind, Except.bind, Pure.pure, Except.pure, pyAssert]
  | false =>
    rcases h with h | h
    · rw [hany1] at h; cases h
    · simp [pyIn, liftOpt, hany1, h, Bind.bind, Except.bind, Pure.pure, Except.pure, pyAssert]

theorem tc006_ridStep_obj (fs : List (String × Json)) :
    ∃ v, tc006_ridStep (.obj fs) = .ok v := by
  unfold tc006_ridStep
  simp only [pyGet, Bind.bind, Except.bind]
  split
  · exact ⟨_, rfl⟩
  · exact ⟨_, rfl⟩

theorem tc006_ridStep_isObj {j v : Json} (h : tc006_ridStep j = .ok v) :
    j.isObj = true := by
  unfold tc006_ridStep at h
  obtain ⟨v1, hv1, _⟩ := bind_ok_elim h
  exact ((pyGet_ok_iff _ _ _).mp hv1).1

/-- C5: the reservation-creation script accepts a behavior iff the valid
payload yields 201 with an `id` or `reservationId` field, the invalid
payload yields 400, and both unauthenticated variants yield 401. -/
theorem tc006_accepts_iff (b : TC006Behavior) :
    test_create_reservation_with_valid_and_invalid_data b = .ok () ↔ tc006_accepting b := by
  unfold test_create_reservation_with_valid_and_invalid_data pyTryFinally
  cases hr1 : b.rValid with
  | exc => simp [tc006_try, hr1, tc006_accepting]
  | resp r1 =>
    constructor
    · intro h
      rw [tc006_try, hr1] at h
      obtain ⟨x1, ha1, h⟩ := bind_ok_elim h
      obtain ⟨j1, hj1, h⟩ := bind_ok_elim h
      obtain ⟨x2, ha2, h⟩ := bind_ok_elim h
      obtain ⟨rid, hrid, h⟩ := bind_ok_elim h
      have hs1 : r1.status = 201 := by simpa using (pyAssert_ok_iff _).mp ha1
      have hb1 : r1.body = some j1 := (respJson_ok_iff _ _).mp hj1
      have hobj : j1.isObj = true := tc006_ridStep_isObj hrid
      have hkey : j1.hasKey "id" = true ∨ j1.hasKey "reservationId" = true := by
        cases x2
        cases j1 with
        | obj fs =>
          rw [hasKey_obj, hasKey_obj]
          exact tc006_memberCheck_obj_ok ha2
        | null => cases hobj
        | bool bb => cases hobj
        | num n => cases hobj
        | str s => cases hobj
        | arr xs => cases hobj
      cases hr2 : b.rInvalid with
      | exc => rw [hr2] at h; cases h
      | resp r2 =>
        rw [hr2] at h
        obtain ⟨x3, ha3, h⟩ := bind_ok_elim h
        cases hr3 : b.rNoAuth with
        | exc => rw [hr3] at h; cases h
        | resp r3 =>
          rw [hr3] at h
          obtain ⟨x4, ha4, h⟩ := bind_ok_elim h
          cases hr4 : b.rBadToken with
          | exc => rw [hr4] at h; cases h
          | resp r4 =>
            rw [hr4] at h
            refine ⟨⟨r1, j1, hr1, hs1, hb1, hobj, hkey⟩, ⟨r2, hr2, ?_⟩,
              ⟨r3, hr3, ?_⟩, ⟨r4, hr4, ?_⟩⟩
            · simpa using (pyAssert_ok_iff _).mp ha3
            · simpa using (pyAssert_ok_iff _).mp ha4
            · simpa using (pyAssert_ok_iff _).mp h
    · rintro ⟨⟨r1', j1, hr1', hs1, hb1, hobj, hkey⟩, ⟨r2, hr2, hs2⟩,
        ⟨r3, hr3, hs3⟩, ⟨r4, hr4, hs4⟩⟩
      rw [hr1] at hr1'
      injection hr1' with hr1''
      subst hr1''
      cases j1 with
      | obj fs =>
        have hmc : tc006_memberCheck (.obj fs) = .ok () := by
          apply tc006_memberCheck_obj_of
          rw [hasKey_obj, hasKey_obj] at hkey
          exact hkey
        obtain ⟨v, hrs⟩ := tc006_ridStep_obj fs
        rw [tc006_try, hr1]
        simp [hs1, hb1, respJson, hmc, hrs, hr2, hs2, hr3, hs3, hr4, hs4, pyAssert,
          Bind.bind, Except.bind]
      | null => cases hobj
      | bool bb => cases hobj
      | num n => cases hobj
      | str s => cases hobj
      | arr xs => cases hobj

/-- Concrete witness exercising the C5 equivalence: a fully conforming
behavior is accepted. -/
theorem tc006_accepts_iff_witness :
    test_create_reservation_with_valid_and_invalid_data
      { rValid := .resp ⟨201, some (.obj [("id", .num 7)])⟩,
        rInvalid := .resp ⟨400, none⟩,
        rNoAuth := .resp ⟨401, none⟩,
        rBadToken := .resp ⟨401, none⟩ } = .ok () := by
  apply (tc006_accepts_iff _).mpr
  exact ⟨⟨_, _, rfl, rfl, rfl, rfl, .inl rfl⟩, ⟨_, rfl, rfl⟩, ⟨_, rfl, rfl⟩, ⟨_, rfl, rfl⟩⟩

/-! ## TC007 — reservation status update
(`testsprite_tests/TC007_update_reservation_status_authorized_user.py`)

Creates a reservation, PATCHes its status through five values expecting
200 each, expects 403 for an unauthorized PATCH, and best-effort-deletes
the reservation in a `finally` block. -/

/-- HTTP results for the requests the TC007 script can send (`rPatch`
gives the result of the status PATCH for each status string). -/
structure TC007Behavior where
  rCreate : HttpResult
  rPatch : String → HttpResult
  rUnauth : HttpResult
  rDelete : HttpResult

/-- The script's `valid_statuses` list. -/
def tc007_valid_statuses : List String :=
  ["draft", "pending", "confirmed", "completed", "cancelled"]

/-- The PATCH loop: each status must return 200. -/
def tc007_patchLoop (patch : String → HttpResult) : List String → PyResult
  | [] => .ok ()
  | s :: rest => do
    (match patch s with
     | .exc => .error .exc
     | .resp r => pyAssert (r.status == 200))
    tc007_patchLoop patch rest

/-- The `try` suite of `test_update_reservation_status_authorized_user`. -/
def tc007_try (b : TC007Behavior) : PyResult :=
  match b.rCreate with
  | .exc => .error .exc
  | .resp rc => do
    pyAssert (rc.status == 201)
    let body ← respJson rc
    let rid ← pyGet body "id"
    pyAssert (pyTruthy rid)
    tc007_patchLoop b.rPatch tc007_valid_statuses
    if pyTruthy rid then
      match b.rUnauth with
      | .exc => .error .exc
      | .resp ru => pyAssert (ru.status == 403)
    else pure ()

/-- The value bound to `reservation_id` (initialized `None`) when the
`finally` suite runs. -/
def tc007_reservation_id (b : TC007Behavior) : Json :=
  match b.rCreate with
  | .exc => .null
  | .resp rc =>
    if rc.status == 201 then
      match rc.body with
      | some d =>
        match d with
        | .obj _ => d.getVal "id"
        | _ => .null
      | none => .null
    else .null

/-- The `finally` suite: delete the reservation if `reservation_id` is
truthy, with all exceptions swallowed. -/
def tc007_cleanup (rid : Json) (rdel : HttpResult) : PyResult :=
  if pyTruthy rid then
    match rdel with
    | .exc => .ok ()
    | .resp _ => .ok ()
  else .ok ()

/-- The whole TC007 script body. -/
def test_update_reservation_status_authorized_user (b : TC007Behavior) : PyResult :=
  pyTryFinally (tc007_try b) (tc007_cleanup (tc007_reservation_id b) b.rDelete)

/-! ## TC008 — favorites / wishlist management
(`__tests__/testsprite/TC008_favorites_wishlist_management.py`)

Looks up beats (expecting a non-empty JSON *list* body), adds the first
beat to favorites and wishlist (201 with `id` each), verifies membership,
checks recently-played, deletes both items (200/204) and verifies their
absence; a `finally` block re-deletes both best-effort. -/

/-- HTTP results for the requests the TC008 script can send. -/
structure TC008Behavior where
  rBeats : HttpResult
  rFavPost : HttpResult
  rFavList : HttpResult
  rWishPost : HttpResult
  rWishList : HttpResult
  rRecent : HttpResult
  rFavDel : HttpResult
  rFavListAfter : HttpResult
  rWishDel : HttpResult
  rWishListAfter : HttpResult
  rFavDelClean : HttpResult
  rWishDelClean : HttpResult
deriving DecidableEq

/-- Step 1 of TC008: `GET /api/beats`, assert 200 and a non-empty list
body, take the first beat's truthy `id`. -/
def tc008_beatsLookup (r : HttpResult) : Except PyErr Json :=
  match r with
  | .exc => .error .exc
  | .resp rr => do
    pyAssert (rr.status == 200)
    let beats ← respJson rr
    -- assert isinstance(beats, list) and len(beats) > 0
    match beats with
    | .arr (beat :: _) => do
      let beat_id ← pyGet beat "id"
      pyAssert (pyTruthy beat_id)
      pure beat_id
    | _ => .error .assertFail

/-- A `POST` step of TC008 (favorites / wishlist): assert 201 and a
truthy `id` in the body, return the id. -/
def tc008_postStep (r : HttpResult) : Except PyErr Json :=
  match r with
  | .exc => .error .exc
  | .resp rr => do
    pyAssert (rr.status == 201)
    let item ← respJson rr
    let iid ← pyGet item "id"
    pyAssert (pyTruthy iid)
    pure iid

/-- Python iteration over a JSON value (`for f in x`): list elements,
dict keys, string characters; `TypeError` otherwise. -/
def pyIterate : Json → Except PyErr (List Json)
  | .arr xs => .ok xs
  | .obj fs => .ok (fs.map (fun p => .str p.1))
  | .str s => .ok (s.data.map (fun c => .str (String.mk [c])))
  | _ => .error .exc

/-- Python `any(f.get("beatId") == beat_id for f in l)` with lazy evaluation
(crashes inside the generator propagate). -/
def tc008_anyBeatId (beat_id : Json) : List Json → Except PyErr Bool
  | [] => .ok false
  | f :: rest => do
    let v ← pyGet f "beatId"
    if v == beat_id then pure true else tc008_anyBeatId beat_id rest

/-- Python `all(f.get("id") != cid for f in l)` with lazy evaluation. -/
def tc008_allNotId (cid : Json) : List Json → Except PyErr Bool
  | [] => .ok true
  | f :: rest => do
    let v ← pyGet f "id"
    if v == cid then pure false else tc008_allNotId cid rest

/-- A membership check on a GET list (steps 3 and 5). -/
def tc008_listCheck (beat_id : Json) (r : HttpResult) : PyResult :=
  match r with
  | .exc => .error .exc
  | .resp rr => do
    pyAssert (rr.status == 200)
    let items ← respJson rr
    let l ← pyIterate items
    let found ← tc008_anyBeatId beat_id l
    pyAssert found

/-- The recently-played check (step 6). -/
def tc008_recentCheck (r : HttpResult) : PyResult :=
  match r with
  | .exc => .error .exc
  | .resp rr => do
    pyAssert (rr.status == 200)
    let l ← respJson rr
    pyAssert l.isArr

/-- A DELETE step (steps 7 and 9): status must be 200 or 204. -/
def tc008_delCheck (r : HttpResult) : PyResult :=
  match r with
  | .exc => .error .exc
  | .resp rr => pyAssert (rr.status == 200 || rr.status == 204)

/-- An absence check after deletion (steps 8 and 10). -/
def tc008_afterDelCheck (cid : Json) (r : HttpResult) : PyResult :=
  match r with
  | .exc => .error .exc
  | .resp rr => do
    pyAssert (rr.status == 200)
    let items ← respJson rr
    let l ← pyIterate items
    let allgone ← tc008_allNotId cid l
    pyAssert allgone

/-- The `try` suite of `test_favorites_wishlist_management`. -/
def tc008_try (b : TC008Behavior) : PyResult := do
  let beat_id ← tc008_beatsLookup b.rBeats
  let fav_id ← tc008_postStep b.rFavPost
  tc008_listCheck beat_id b.rFavList
  let wish_id ← tc008_postStep b.rWishPost
  tc008_listCheck beat_id b.rWishList
  tc008_recentCheck b.rRecent
  tc008_delCheck b.rFavDel
  tc008_afterDelCheck fav_id b.rFavListAfter
  tc008_delCheck b.rWishDel
  tc008_afterDelCheck wish_id b.rWishListAfter

/-- The value bound to a `x = resp.json().get("id")` variable after a
201-assert, `null` (Python `None`) when any of those sub-steps failed. -/
def tc008_step_id (r : HttpResult) : Json :=
  match r with
  | .exc => .null
  | .resp rr =>
    if rr.status == 201 then
      match rr.body with
      | some d =>
        match d with
        | .obj _ => d.getVal "id"
        | _ => .null
      | none => .null
    else .null

/-- The value of `created_favorite_id` when the `finally` suite runs. -/
def tc008_fav_id (b : TC008Behavior) : Json :=
  match tc008_beatsLookup b.rBeats with
  | .error _ => .null
  | .ok _ => tc008_step_id b.rFavPost

/-- The value of `created_wishlist_id` when the `finally` suite runs
(bound only after steps 1–3 completed). -/
def tc008_wish_id (b : TC008Behavior) : Json :=
  match (do
    let beat_id ← tc008_beatsLookup b.rBeats
    let _ ← tc008_postStep b.rFavPost
    tc008_listCheck beat_id b.rFavList) with
  | .error _ => .null
  | .ok _ => tc008_step_id b.rWishPost

/-- The `finally` suite: try deleting the favorite then the wishlist
item (each only when its id is truthy), every exception swallowed. -/
def tc008_cleanup (fav_id wish_id : Json) (rdf rdw : HttpResult) : PyResult :=
  let step1 : PyResult :=
    if pyTruthy fav_id then
      match rdf with
      | .exc => .ok ()
      | .resp _ => .ok ()
    else .ok ()
  let step2 : PyResult :=
    if pyTruthy wish_id then
      match rdw with
      | .exc => .ok ()
      | .resp _ => .ok ()
    else .ok ()
  match step1 with
  | .error e => .error e
  | .ok _ => step2

/-- The whole TC008 script body. -/
def test_favorites_wishlist_management (b : TC008Behavior) : PyResult :=
  pyTryFinally (tc008_try b)
    (tc008_cleanup (tc008_fav_id b) (tc008_wish_id b) b.rFavDelClean b.rWishDelClean)

theorem tc007_cleanup_ok (rid : Json) (r : HttpResult) :
    tc007_cleanup rid r = .ok () := by
  simp only [tc007_cleanup]
  split
  · cases r <;> rfl
  · rfl

theorem tc008_cleanup_ok (i1 i2 : Json) (r1 r2 : HttpResult) :
    tc008_cleanup i1 i2 r1 r2 = .ok () := by
  simp only [tc008_cleanup]
  split
  next e heq =>
    exfalso
    revert heq
    split
    · cases r1 <;> (intro hh; cases hh)
    · intro hh; cases hh
  next =>
    split
    · cases r2 <;> rfl
    · rfl

/-- C6: in each resource-creating script (TC001 orders, TC007
reservations, TC008 favorites/wishlist) the `finally` cleanup suite
returns normally on every API behavior — transport errors, bad statuses,
and creations that fail before an id is bound included — so the script's
outcome is exactly its `try` suite's outcome and teardown can neither
fail a passing run nor mask a failure. -/
theorem cleanup_never_raises_or_masks :
    (∀ (d : Option Json) (r : HttpResult), tc001_cleanup d r = .ok ()) ∧
    (∀ b : TC001Behavior, test_create_order_with_idempotency_support b = tc001_try b) ∧
    (∀ (rid : Json) (r : HttpResult), tc007_cleanup rid r = .ok ()) ∧
    (∀ b : TC007Behavior, test_update_reservation_status_authorized_user b = tc007_try b) ∧
    (∀ (i1 i2 : Json) (r1 r2 : HttpResult), tc008_cleanup i1 i2 r1 r2 = .ok ()) ∧
    (∀ b : TC008Behavior, test_favorites_wishlist_management b = tc008_try b) := by
  refine ⟨tc001_cleanup_ok, ?_, tc007_cleanup_ok, ?_, tc008_cleanup_ok, ?_⟩
  · intro b
    unfold test_create_order_with_idempotency_support
    rw [tc001_cleanup_ok]
    rfl
  · intro b
    unfold test_update_reservation_status_authorized_user
    rw [tc007_cleanup_ok]
    rfl
  · intro b
    unfold test_favorites_wishlist_management
    rw [tc008_cleanup_ok]
    rfl

/-- C7 counterexample: a 200 response whose body is the object
`{"beats": [...]}` — the shape the spec documents for `GET /api/beats` —
is REJECTED by the favorites/wishlist script's initial beat lookup,
which asserts the body itself is a non-empty list. -/
theorem tc008_rejects_beats_object_body :
    tc008_beatsLookup
      (.resp ⟨200, some (.obj [("beats", .arr [.obj [("id", .num 1)]])])⟩)
      = .error .assertFail := by
  rfl

/-- C7 amended: on a 200 response with body `{"beats": [...]}`, the
TC002 filtering script's structure check accepts (returning the list),
while the TC008 favorites/wishlist script's initial beat lookup fails
its list assertion. -/
theorem beats_object_body_split (bs : List Json) :
    tc002_structCheck (.resp ⟨200, some (.obj [("beats", .arr bs)])⟩) = .ok bs ∧
    tc008_beatsLookup (.resp ⟨200, some (.obj [("beats", .arr bs)])⟩)
      = .error .assertFail := by
  exact ⟨rfl, rfl⟩

/-! ## scripts/fix-home.py — the regex patch (claim C9)

The script reads a file and writes back
`re.sub(old_pattern, new_code, content, flags=re.MULTILINE)`.

`old_pattern` is a raw triple-quoted string whose lines are joined by
literal newline characters; it uses only three regex constructs: literal
characters (mostly backslash-escaped), `\s+` (one-or-more whitespace),
and `\$?` (an optional literal dollar).  `re.MULTILINE` only affects
`^`/`$`, which do not occur.  We embed the pattern as a token list and
give the matcher Python's leftmost / greedy semantics.  `\s+` is
implemented as a maximal-munch without backtracking; this agrees with
Python's backtracking greedy `\s+` because in `old_pattern` every `\s+`
is immediately followed by a literal non-whitespace character (checked
below as `wspGood`), so any shorter munch leaves a whitespace character
where a non-whitespace literal is required. -/

/-- One regex token of the subset `old_pattern` uses. -/
inductive Tok where
  | lit (c : Char)
  | opt (c : Char)
  | wsp
deriving DecidableEq

/-- Python `\s` on the ASCII range (the file content is ASCII). -/
def isWsC (c : Char) : Bool :=
  c == ' ' || c == '\t' || c == '\n' || c == '\r' || c == '\x0b' || c == '\x0c'

/-- Match the token list at the front of the string; return the
remainder on success.  `opt` is greedy with backtracking; `wsp` is
maximal-munch (see the section comment). -/
def matchToks : List Tok → List Char → Option (List Char)
  | [], s => some s
  | .lit c :: ts, s =>
    match s with
    | [] => none
    | d :: s' => if d = c then matchToks ts s' else none
  | .opt c :: ts, s =>
    match s with
    | [] => matchToks ts []
    | d :: s' =>
      if d = c then
        match matchToks ts s' with
        | some r => some r
        | none => matchToks ts (d :: s')
      else matchToks ts (d :: s')
  | .wsp :: ts, s =>
    match s with
    | [] => none
    | d :: s' => if isWsC d then matchToks ts (s'.dropWhile isWsC) else none

/-- A run of literal tokens. -/
def lits (s : String) : List Tok := s.data.map .lit

/-- A line break inside the pattern: the literal newline ending one raw
line, then the `\s+` starting the next. -/
def nlWsp : List Tok := [Tok.lit '\n', Tok.wsp]

/-- The `old_pattern` regex of `scripts/fix-home.py`, token by token
(braces written `\x7b`/`\x7d`, backtick `\x60`). -/
def old_pattern : List Tok :=
  lits "\x7b(() => \x7b" ++ nlWsp ++
  lits "const isFree =" ++ nlWsp ++
  lits "beat.is_free ||" ++ nlWsp ++
  lits "beat.tags?.some(" ++ nlWsp ++
  lits "(tag: WooCommerceTag) => tag.name.toLowerCase() === \"free\"" ++ nlWsp ++
  lits ") ||" ++ nlWsp ++
  lits "beat.price === 0 ||" ++ nlWsp ++
  lits "beat.price === \"0\" ||" ++ nlWsp ++
  lits "parseFloat(beat.price) === 0 ||" ++ nlWsp ++
  lits "false;" ++ nlWsp ++
  lits "return isFree ? (" ++ nlWsp ++
  lits "<span className=\"text-[var(--accent-cyan)]\">FREE</span>" ++ nlWsp ++
  lits ") : (" ++ nlWsp ++
  [Tok.lit '\x60', Tok.opt '$', Tok.opt '$', Tok.lit '\x7b'] ++
  lits "beat.price || \"29.99\"" ++ [Tok.lit '\x7d', Tok.lit '\x60'] ++ nlWsp ++
  lits ");" ++ nlWsp ++
  lits "\x7d)()\x7d"

/-- The `new_code` replacement text of `scripts/fix-home.py`. -/
def new_code : List Char :=
  ("\x7bisFreeProduct(beat) ? (\n" ++
   "                            <span className=\"text-[var(--accent-cyan)]\">FREE</span>\n" ++
   "                          ) : (\n" ++
   "                            \x60$$\x7bgetFormattedPrice(beat)\x7d\x60\n" ++
   "                          )\x7d").data

theorem dropWhile_len_le (p : Char → Bool) :
    ∀ l : List Char, (l.dropWhile p).length ≤ l.length := by
  intro l
  induction l with
  | nil => simp
  | cons a l ih =>
    rw [List.dropWhile]
    cases p a
    · simp
    · simpa using Nat.le_succ_of_le ih

theorem matchToks_len : ∀ (ts : List Tok) (u r : List Char),
    matchToks ts u = some r → r.length ≤ u.length := by
  intro ts
  induction ts with
  | nil =>
    intro u r h
    simp only [matchToks] at h
    rw [← Option.some_inj.mp h]
  | cons t ts ih =>
    intro u r h
    cases t with
    | lit c =>
      cases u with
      | nil => simp [matchToks] at h
      | cons d u' =>
        simp only [matchToks] at h
        by_cases hd : d = c
        · rw [if_pos hd] at h
          exact le_trans (ih u' r h) (Nat.le_succ _)
        · rw [if_neg hd] at h
          cases h
    | opt c =>
      cases u with
      | nil =>
        simp only [matchToks] at h
        exact ih [] r h
      | cons d u' =>
        simp only [matchToks] at h
        by_cases hd : d = c
        · rw [if_pos hd] at h
          cases hin : matchToks ts u' with
          | some r' =>
            rw [hin] at h
            have := Option.some_inj.mp h
            subst this
            exact le_trans (ih u' r' hin) (Nat.le_succ _)
          | none =>
            rw [hin] at h
            exact ih (d :: u') r h
        · rw [if_neg hd] at h
          exact ih (d :: u') r h
    | wsp =>
      cases u with
      | nil => simp [matchToks] at h
      | cons d u' =>
        simp only [matchToks] at h
        by_cases hd : isWsC d = true
        · rw [if_pos hd] at h
          have h1 := ih _ r h
          have h2 : (u'.dropWhile isWsC).length ≤ u'.length := dropWhile_len_le isWsC u'
          calc r.length ≤ (u'.dropWhile isWsC).length := h1
            _ ≤ u'.length := h2
            _ ≤ u'.length + 1 := Nat.le_succ _
        · rw [if_neg hd] at h
          cases h

theorem matchToks_lt_of_lit {c : Char} {ts : List Tok} {u r : List Char}
    (h : matchToks (.lit c :: ts) u = some r) : r.length < u.length := by
  cases u with
  | nil => simp [matchToks] at h
  | cons d u' =>
    simp only [matchToks] at h
    by_cases hd : d = c
    · rw [if_pos hd] at h
      exact Nat.lt_succ_of_le (matchToks_len ts u' r h)
    · rw [if_neg hd] at h
      cases h

theorem old_pattern_head :
    old_pattern = Tok.lit '\x7b' :: Tok.lit '(' :: old_pattern.drop 2 := by
  rfl

theorem matchP_lt {u r : List Char} (h : matchToks old_pattern u = some r) :
    r.length < u.length := by
  rw [old_pattern_head] at h
  exact matchToks_lt_of_lit h

/-- Python `re.sub(old_pattern, new_code, ·)`: scan left to right; at a match,
emit `new_code` and continue after the match; otherwise keep the
character and move one position right.  `fuel` only bounds the recursion
(`reSub` below supplies `s.length`, which always suffices because a
match consumes at least one character). -/
def reSubF : Nat → List Char → List Char
  | _, [] => []
  | 0, s => s
  | fuel + 1, c :: rest =>
    match matchToks old_pattern (c :: rest) with
    | some rem => new_code ++ reSubF fuel rem
    | none => c :: reSubF fuel rest

def reSub (s : List Char) : List Char := reSubF s.length s

/-- Does the pattern match anywhere in the string (equivalently: does
any substring match)? -/
def hasMatchB : List Char → Bool
  | [] => false
  | c :: rest => (matchToks old_pattern (c :: rest)).isSome || hasMatchB rest

theorem reSubF_fuel_eq : ∀ (n : Nat) (f1 f2 : Nat) (s : List Char),
    s.length ≤ n → s.length ≤ f1 → s.length ≤ f2 →
    reSubF f1 s = reSubF f2 s := by
  intro n
  induction n with
  | zero =>
    intro f1 f2 s hn _ _
    have : s = [] := List.length_eq_zero.mp (Nat.le_zero.mp hn)
    subst this
    cases f1 <;> cases f2 <;> rfl
  | succ n ih =>
    intro f1 f2 s hn h1 h2
    cases s with
    | nil => cases f1 <;> cases f2 <;> rfl
    | cons c rest =>
      have hp1 : 1 ≤ f1 := le_trans (Nat.succ_le_succ (Nat.zero_le _)) h1
      have hp2 : 1 ≤ f2 := le_trans (Nat.succ_le_succ (Nat.zero_le _)) h2
      obtain ⟨g1, rfl⟩ : ∃ g1, f1 = g1 + 1 :=
        ⟨f1 - 1, by omega⟩
      obtain ⟨g2, rfl⟩ : ∃ g2, f2 = g2 + 1 :=
        ⟨f2 - 1, by omega⟩
      simp only [List.length_cons] at hn h1 h2
      simp only [reSubF]
      cases hm : matchToks old_pattern (c :: rest) with
      | some rem =>
        have hlt : rem.length < rest.length + 1 := by
          have := matchP_lt hm
          simpa using this
        show new_code ++ reSubF g1 rem = new_code ++ reSubF g2 rem
        rw [ih g1 g2 rem (by omega) (by omega) (by omega)]
      | none =>
        show c :: reSubF g1 rest = c :: reSubF g2 rest
        rw [ih g1 g2 rest (by omega) (by omega) (by omega)]

theorem reSub_nil : reSub [] = [] := rfl

theorem reSub_cons_some {c : Char} {rest rem : List Char}
    (h : matchToks old_pattern (c :: rest) = some rem) :
    reSub (c :: rest) = new_code ++ reSub rem := by
  have hle : rem.length ≤ rest.length := by
    have := matchP_lt h
    simp only [List.length_cons] at this
    omega
  show reSubF (c :: rest).length (c :: rest) = _
  simp only [List.length_cons, reSubF, h]
  rw [reSubF_fuel_eq rem.length rest.length rem.length rem (le_refl _) hle (le_refl _)]
  rfl

theorem reSub_cons_none {c : Char} {rest : List Char}
    (h : matchToks old_pattern (c :: rest) = none) :
    reSub (c :: rest) = c :: reSub rest := by
  show reSubF (c :: rest).length (c :: rest) = _
  simp only [List.length_cons, reSubF, h]
  rfl

/-- Declarative matching: `Matches ts v` says the token list `ts`
matches exactly the string `v`. -/
inductive Matches : List Tok → List Char → Prop where
  | nil : Matches [] []
  | lit {c : Char} {ts : List Tok} {v : List Char} :
      Matches ts v → Matches (.lit c :: ts) (c :: v)
  | optC {c : Char} {ts : List Tok} {v : List Char} :
      Matches ts v → Matches (.opt c :: ts) (c :: v)
  | optS {c : Char} {ts : List Tok} {v : List Char} :
      Matches ts v → Matches (.opt c :: ts) v
  | wspO {d : Char} {ts : List Tok} {v : List Char} :
      isWsC d = true → Matches ts v → Matches (.wsp :: ts) (d :: v)
  | wspM {d : Char} {ts : List Tok} {v : List Char} :
      isWsC d = true → Matches (.wsp :: ts) v → Matches (.wsp :: ts) (d :: v)

theorem mem_takeWhile_ws {l : List Char} :
    ∀ x ∈ l.takeWhile isWsC, isWsC x = true := by
  induction l with
  | nil => intro x hx; cases hx
  | cons a l ih =>
    intro x hx
    rw [List.takeWhile] at hx
    cases ha : isWsC a with
    | false => rw [ha] at hx; cases hx
    | true =>
      rw [ha] at hx
      rcases List.mem_cons.mp hx with hx | hx
      · rw [hx]; exact ha
      · exact ih x hx

theorem matches_wsp_chain {ts : List Tok} {v : List Char} :
    ∀ (w : List Char), (∀ x ∈ w, isWsC x = true) → Matches ts v →
      ∀ {d : Char}, isWsC d = true → Matches (.wsp :: ts) (d :: (w ++ v)) := by
  intro w
  induction w with
  | nil => intro _ m d hd; exact Matches.wspO hd m
  | cons x w' ih =>
    intro hws m d hd
    have hx : isWsC x = true := hws x (List.mem_cons_self x w')
    have : Matches (.wsp :: ts) (x :: (w' ++ v)) :=
      ih (fun y hy => hws y (List.mem_cons_of_mem x hy)) m hx
    exact Matches.wspM hd this

/-- Soundness of the executable matcher: a successful run yields a
declarative match of the consumed prefix. -/
theorem matchToks_sound : ∀ (ts : List Tok) (u r : List Char),
    matchToks ts u = some r → ∃ v, u = v ++ r ∧ Matches ts v := by
  intro ts
  induction ts with
  | nil =>
    intro u r h
    simp only [matchToks] at h
    exact ⟨[], by rw [Option.some_inj.mp h]; rfl, Matches.nil⟩
  | cons t ts ih =>
    intro u r h
    cases t with
    | lit c =>
      cases u with
      | nil => simp [matchToks] at h
      | cons d u' =>
        simp only [matchToks] at h
        by_cases hd : d = c
        · rw [if_pos hd] at h
          obtain ⟨v', hu', m'⟩ := ih u' r h
          subst hd
          exact ⟨d :: v', by rw [hu']; rfl, Matches.lit m'⟩
        · rw [if_neg hd] at h
          cases h
    | opt c =>
      cases u with
      | nil =>
        simp only [matchToks] at h
        obtain ⟨v', hu', m'⟩ := ih [] r h
        have hv : v' = [] := by
          cases v' with
          | nil => rfl
          | cons a l => cases hu'
        subst hv
        exact ⟨[], hu', Matches.optS m'⟩
      | cons d u' =>
        simp only [matchToks] at h
        by_cases hd : d = c
        · rw [if_pos hd] at h
          cases hin : matchToks ts u' with
          | some r0 =>
            rw [hin] at h
            obtain ⟨v', hu', m'⟩ := ih u' r0 hin
            subst hd
            have hr : r0 = r := Option.some_inj.mp h
            subst hr
            exact ⟨d :: v', by rw [hu']; rfl, Matches.optC m'⟩
          | none =>
            rw [hin] at h
            obtain ⟨v', hu', m'⟩ := ih (d :: u') r h
            exact ⟨v', hu', Matches.optS m'⟩
        · rw [if_neg hd] at h
          obtain ⟨v', hu', m'⟩ := ih (d :: u') r h
          exact ⟨v', hu', Matches.optS m'⟩
    | wsp =>
      cases u with
      | nil => simp [matchToks] at h
      | cons d u' =>
        simp only [matchToks] at h
        by_cases hd : isWsC d = true
        · rw [if_pos hd] at h
          obtain ⟨v', hu', m'⟩ := ih _ r h
          refine ⟨d :: (u'.takeWhile isWsC ++ v'), ?_, ?_⟩
          · have : u' = u'.takeWhile isWsC ++ u'.dropWhile isWsC :=
              (List.takeWhile_append_dropWhile (p := isWsC) (l := u')).symm
            calc d :: u' = d :: (u'.takeWhile isWsC ++ u'.dropWhile isWsC) := by rw [← this]
              _ = d :: (u'.takeWhile isWsC ++ (v' ++ r)) := by rw [hu']
              _ = (d :: (u'.takeWhile isWsC ++ v')) ++ r := by simp
          · exact matches_wsp_chain _ mem_takeWhile_ws m' hd
        · rw [if_neg hd] at h
          cases h

/-- Structural condition justifying the maximal-munch `\s+`: every `wsp`
is immediately followed by a literal non-whitespace token. -/
def wspGood : List Tok → Bool
  | [] => true
  | .wsp :: ts =>
    match ts with
    | .lit c :: _ => !isWsC c && wspGood ts
    | _ => false
  | _ :: ts => wspGood ts

theorem wspGood_tail {t : Tok} {ts : List Tok} (h : wspGood (t :: ts) = true) :
    wspGood ts = true := by
  cases t with
  | lit c => exact h
  | opt c => exact h
  | wsp =>
    simp only [wspGood] at h
    cases ts with
    | nil => cases h
    | cons t' ts' =>
      cases t' with
      | lit c => exact (Bool.and_eq_true_iff.mp h).2
      | opt c => cases h
      | wsp => cases h

theorem matches_wsp_head {ts : List Tok} {w : List Char}
    (m : Matches (.wsp :: ts) w) : ∃ e w', w = e :: w' ∧ isWsC e = true := by
  cases m with
  | wspO hd m' => exact ⟨_, _, rfl, hd⟩
  | wspM hd m' => exact ⟨_, _, rfl, hd⟩

theorem not_matches_wsp_nil {ts : List Tok} (m : Matches (.wsp :: ts) []) : False := by
  cases m

/-- Completeness of the executable matcher on `wspGood` token lists: if
a declarative match of `v` exists, the matcher succeeds on `v ++ r`. -/
theorem matchToks_complete {ts : List Tok} {v : List Char} (m : Matches ts v) :
    wspGood ts = true → ∀ r, matchToks ts (v ++ r) ≠ none := by
  induction m with
  | nil =>
    intro _ r
    simp [matchToks]
  | lit m' ih =>
    intro hg r
    simp only [matchToks, List.cons_append, if_pos rfl]
    exact ih (wspGood_tail hg) r
  | optC m' ih =>
    intro hg r
    simp only [matchToks, List.cons_append, if_pos rfl]
    cases hin : matchToks _ _ with
    | some r0 => simp
    | none => exact absurd hin (ih (wspGood_tail hg) r)
  | optS m' ih =>
    intro hg r
    rename_i c0 ts' v'
    have ih' := ih (wspGood_tail hg) r
    simp only [matchToks]
    cases hvr : (v' ++ r : List Char) with
    | nil =>
      rw [hvr] at ih'
      exact ih'
    | cons d u' =>
      rw [hvr] at ih'
      show (if d = c0 then
          match matchToks ts' u' with
          | some r0 => some r0
          | none => matchToks ts' (d :: u')
        else matchToks ts' (d :: u')) ≠ none
      by_cases hd : d = c0
      · rw [if_pos hd]
        cases hin : matchToks ts' u' with
        | some r0 => simp
        | none => exact ih'
      · rw [if_neg hd]
        exact ih'
  | wspO hd m' ih =>
    intro hg r
    rename_i d ts' v'
    simp only [wspGood] at hg
    cases hts : ts' with
    | nil => rw [hts] at hg; cases hg
    | cons t0 ts₂ =>
      cases t0 with
      | lit c0 =>
        rw [hts] at hg
        have hc0 : isWsC c0 = false := by
          have := (Bool.and_eq_true_iff.mp hg).1
          simpa using this
        have hg' : wspGood (Tok.lit c0 :: ts₂) = true := (Bool.and_eq_true_iff.mp hg).2
        subst hts
        cases m' with
        | lit m₂ =>
          rename_i v₂
          have ih2 := ih hg' r
          show matchToks (Tok.wsp :: (Tok.lit c0 :: ts₂)) (d :: ((c0 :: v₂) ++ r)) ≠ none
          have step : matchToks (Tok.wsp :: (Tok.lit c0 :: ts₂)) (d :: ((c0 :: v₂) ++ r))
              = matchToks (Tok.lit c0 :: ts₂) ((c0 :: v₂) ++ r) := by
            show (if isWsC d = true then
                matchToks (Tok.lit c0 :: ts₂) (((c0 :: v₂) ++ r).dropWhile isWsC)
              else none) = _
            rw [if_pos hd, List.cons_append,
              List.dropWhile_cons_of_neg (by simp [hc0])]
          rw [step]
          exact ih2
      | opt c0 => rw [hts] at hg; cases hg
      | wsp => rw [hts] at hg; cases hg
  | wspM hd m' ih =>
    intro hg r
    rename_i d ts' v'
    obtain ⟨e, w', hw, he⟩ := matches_wsp_head m'
    subst hw
    have ih' := ih hg r
    have step : matchToks (Tok.wsp :: ts') ((e :: w') ++ r)
        = matchToks ts' ((w' ++ r).dropWhile isWsC) := by
      show (if isWsC e = true then
          matchToks ts' ((w' ++ r).dropWhile isWsC) else none) = _
      rw [if_pos he]
    have hih : matchToks ts' ((w' ++ r).dropWhile isWsC) ≠ none := by
      rw [step] at ih'
      exact ih'
    show matchToks (Tok.wsp :: ts') (d :: ((e :: w') ++ r)) ≠ none
    have step2 : matchToks (Tok.wsp :: ts') (d :: ((e :: w') ++ r))
        = matchToks ts' ((w' ++ r).dropWhile isWsC) := by
      show (if isWsC d = true then
          matchToks ts' (((e :: w') ++ r).dropWhile isWsC) else none) = _
      rw [if_pos hd, List.cons_append,
        List.dropWhile_cons_of_pos (by simp [he])]
    rw [step2]
    exact hih

/-- Characters that can start a string matched by `ts`. -/
def canStart : List Tok → Char → Bool
  | [], _ => false
  | .lit d :: _, c => d == c
  | .opt d :: ts, c => d == c || canStart ts c
  | .wsp :: _, c => isWsC c

theorem canStart_of_matches : ∀ {ts : List Tok} {w : List Char}, Matches ts w →
    ∀ {d : Char} {v : List Char}, w = d :: v → canStart ts d = true := by
  intro ts w m
  induction m with
  | nil => intro d v h; cases h
  | lit m' ih =>
    intro d v h
    injection h with h1 _
    simp [canStart, h1]
  | optC m' ih =>
    intro d v h
    injection h with h1 _
    simp [canStart, h1]
  | optS m' ih =>
    intro d v h
    simp [canStart, ih h]
  | wspO hd m' ih =>
    intro d v h
    injection h with h1 _
    rw [← h1]
    simp [canStart, hd]
  | wspM hd m' ih =>
    intro d v h
    injection h with h1 _
    rw [← h1]
    simp [canStart, hd]

/-- Token lists that can match the empty string. -/
def nullable : List Tok → Bool
  | [] => true
  | .opt _ :: ts => nullable ts
  | _ => false

theorem nullable_of_matches : ∀ {ts : List Tok} {w : List Char}, Matches ts w →
    w = [] → nullable ts = true := by
  intro ts w m
  induction m with
  | nil => intro _; rfl
  | lit m' ih => intro h; cases h
  | optC m' ih => intro h; cases h
  | optS m' ih => intro h; simpa [nullable] using ih h
  | wspO hd m' ih => intro h; cases h
  | wspM hd m' ih => intro h; cases h

/-- Token lists that can match exactly the one-character string `[c]`. -/
def singleCharComplete : List Tok → Char → Bool
  | [], _ => false
  | .lit d :: ts, c => d == c && nullable ts
  | .opt d :: ts, c => (d == c && nullable ts) || singleCharComplete ts c
  | .wsp :: ts, c => isWsC c && nullable ts

theorem scc_of_matches_single : ∀ {ts : List Tok} {w : List Char}, Matches ts w →
    ∀ {c : Char}, w = [c] → singleCharComplete ts c = true := by
  intro ts w m
  induction m with
  | nil => intro c h; cases h
  | lit m' ih =>
    intro c h
    injection h with h1 h2
    subst h1
    simp [singleCharComplete, nullable_of_matches m' h2]
  | optC m' ih =>
    intro c h
    injection h with h1 h2
    subst h1
    simp [singleCharComplete, nullable_of_matches m' h2]
  | optS m' ih =>
    intro c h
    simp [singleCharComplete, ih h]
  | wspO hd m' ih =>
    intro c h
    injection h with h1 h2
    subst h1
    simp [singleCharComplete, hd, nullable_of_matches m' h2]
  | wspM hd m' ih =>
    intro c h
    injection h with h1 h2
    subst h2
    exact absurd m' not_matches_wsp_nil

/-- No nonempty suffix of `ts` matches exactly `[c]`. -/
def noSingleSuff (c : Char) : List Tok → Bool
  | [] => true
  | t :: ts => !singleCharComplete (t :: ts) c && noSingleSuff c ts

theorem noSingleSuff_spec {c : Char} : ∀ {l ts : List Tok},
    noSingleSuff c l = true → ts <:+ l → ts ≠ [] → singleCharComplete ts c = false := by
  intro l
  induction l with
  | nil =>
    intro ts _ hsuf hne
    exact absurd (List.suffix_nil.mp hsuf) hne
  | cons t l' ih =>
    intro ts h hsuf hne
    rcases List.suffix_cons_iff.mp hsuf with heq | hsuf'
    · rw [heq]
      have := (Bool.and_eq_true_iff.mp h).1
      simpa using this
    · exact ih (Bool.and_eq_true_iff.mp h).2 hsuf' hne

/-- Adjacent-pair check for one token against its continuation. -/
def pairOK (a b : Char) : Tok → List Tok → Bool
  | .lit d, ts => !(d == a) || !canStart ts b
  | .opt d, ts => !(d == a) || !canStart ts b
  | .wsp, ts => !isWsC a || (!canStart ts b && !isWsC b)

/-- No string matched by `ts` contains the character `a` immediately
followed by `b`. -/
def pairSafe (a b : Char) : List Tok → Bool
  | [] => true
  | t :: ts => pairOK a b t ts && pairSafe a b ts

theorem pairSafe_tail {a b : Char} {t : Tok} {ts : List Tok}
    (h : pairSafe a b (t :: ts) = true) : pairSafe a b ts = true :=
  (Bool.and_eq_true_iff.mp h).2

theorem pairSafe_suffix {a b : Char} : ∀ {l ts : List Tok},
    pairSafe a b l = true → ts <:+ l → pairSafe a b ts = true := by
  intro l
  induction l with
  | nil =>
    intro ts h hsuf
    rw [List.suffix_nil.mp hsuf]
    rfl
  | cons t l' ih =>
    intro ts h hsuf
    rcases List.suffix_cons_iff.mp hsuf with heq | hsuf'
    · rw [heq]; exact h
    · exact ih (pairSafe_tail h) hsuf'

/-- Does the string contain `a` immediately followed by `b`? -/
def hasPair (a b : Char) : List Char → Bool
  | x :: y :: r => (x == a && y == b) || hasPair a b (y :: r)
  | _ => false

theorem hasPair_cons_of {a b x : Char} {w : List Char}
    (h : hasPair a b w = true) : hasPair a b (x :: w) = true := by
  cases w with
  | nil => cases h
  | cons y r => simp [hasPair, h]

theorem hasPair_here (a b : Char) (l : List Char) :
    hasPair a b (a :: b :: l) = true := by
  simp [hasPair]

theorem hasPair_of_append (a b : Char) : ∀ (pre l : List Char),
    hasPair a b (pre ++ a :: b :: l) = true := by
  intro pre
  induction pre with
  | nil => intro l; exact hasPair_here a b l
  | cons x pre' ih =>
    intro l
    rw [List.cons_append]
    exact hasPair_cons_of (ih l)

/-- The central pair lemma: a `pairSafe` token list never matches a
string containing the adjacent pair `a`,`b`. -/
theorem hasPair_false_of_matches {a b : Char} : ∀ {ts : List Tok} {w : List Char},
    Matches ts w → pairSafe a b ts = true → hasPair a b w = false := by
  intro ts w m
  induction m with
  | nil => intro _; rfl
  | lit m' ih =>
    rename_i c ts' v
    intro h
    have hp : pairOK a b (Tok.lit c) ts' = true := (Bool.and_eq_true_iff.mp h).1
    have hrest := ih (pairSafe_tail h)
    cases v with
    | nil => rfl
    | cons y r =>
      have hy : canStart ts' y = true := canStart_of_matches m' rfl
      show ((c == a && y == b) || hasPair a b (y :: r)) = false
      rw [hrest, Bool.or_false]
      by_cases hca : c = a
      · have hcb : canStart ts' b = false := by
          simp only [pairOK, hca] at hp
          simpa using hp
        have hyb : y ≠ b := fun hh => by rw [hh] at hy; rw [hy] at hcb; cases hcb
        simp [hyb]
      · simp [hca]
  | optC m' ih =>
    rename_i c ts' v
    intro h
    have hp : pairOK a b (Tok.opt c) ts' = true := (Bool.and_eq_true_iff.mp h).1
    have hrest := ih (pairSafe_tail h)
    cases v with
    | nil => rfl
    | cons y r =>
      have hy : canStart ts' y = true := canStart_of_matches m' rfl
      show ((c == a && y == b) || hasPair a b (y :: r)) = false
      rw [hrest, Bool.or_false]
      by_cases hca : c = a
      · have hcb : canStart ts' b = false := by
          simp only [pairOK, hca] at hp
          simpa using hp
        have hyb : y ≠ b := fun hh => by rw [hh] at hy; rw [hy] at hcb; cases hcb
        simp [hyb]
      · simp [hca]
  | optS m' ih =>
    intro h
    exact ih (pairSafe_tail h)
  | wspO hd m' ih =>
    rename_i d ts' v
    intro h
    have hp : pairOK a b Tok.wsp ts' = true := (Bool.and_eq_true_iff.mp h).1
    have hrest := ih (pairSafe_tail h)
    cases v with
    | nil => rfl
    | cons y r =>
      have hy : canStart ts' y = true := canStart_of_matches m' rfl
      show ((d == a && y == b) || hasPair a b (y :: r)) = false
      rw [hrest, Bool.or_false]
      by_cases hda : d = a
      · have hwa : isWsC a = true := by rw [← hda]; exact hd
        have hp2 : canStart ts' b = false ∧ isWsC b = false := by
          simp only [pairOK, hwa] at hp
          simpa using hp
        have hyb : y ≠ b := fun hh => by
          rw [hh] at hy
          rw [hy] at hp2
          exact absurd hp2.1 (by simp)
        simp [hyb]
      · simp [hda]
  | wspM hd m' ih =>
    rename_i d ts' v
    intro h
    have hp : pairOK a b Tok.wsp ts' = true := (Bool.and_eq_true_iff.mp h).1
    have hrest := ih h
    obtain ⟨e, w', hw, he⟩ := matches_wsp_head m'
    subst hw
    show ((d == a && e == b) || hasPair a b (e :: w')) = false
    rw [hrest, Bool.or_false]
    by_cases hda : d = a
    · have hwa : isWsC a = true := by rw [← hda]; exact hd
      have hp2 : canStart ts' b = false ∧ isWsC b = false := by
        simp only [pairOK, hwa] at hp
        simpa using hp
      have heb : e ≠ b := fun hh => by
        rw [hh] at he
        rw [he] at hp2
        exact absurd hp2.2 (by simp)
      simp [heb]
    · simp [hda]

/-- One-character step: a match of `ts` on `c :: v'` factors through a
state `ts''` (a suffix of `ts`, or `ts` itself inside a `\s+` run) that
matches `v'` and reconstructs over any string. -/
theorem matches_step : ∀ {ts : List Tok} {c : Char} {v' : List Char},
    Matches ts (c :: v') →
    ∃ ts'', (ts'' <:+ ts) ∧ Matches ts'' v' ∧
      (∀ w, Matches ts'' w → Matches ts (c :: w)) := by
  intro ts
  induction ts with
  | nil => intro c v' m; cases m
  | cons t ts ih =>
    intro c v' m
    cases t with
    | lit d =>
      cases m with
      | lit m' => exact ⟨ts, List.suffix_cons _ _, m', fun w hw => Matches.lit hw⟩
    | opt d =>
      cases m with
      | optC m' => exact ⟨ts, List.suffix_cons _ _, m', fun w hw => Matches.optC hw⟩
      | optS m' =>
        obtain ⟨ts'', hsuf, hm, hrec⟩ := ih m'
        exact ⟨ts'', hsuf.trans (List.suffix_cons _ _), hm,
          fun w hw => Matches.optS (hrec w hw)⟩
    | wsp =>
      cases m with
      | wspO hd m' => exact ⟨ts, List.suffix_cons _ _, m', fun w hw => Matches.wspO hd hw⟩
      | wspM hd m' =>
        exact ⟨Tok.wsp :: ts, List.suffix_refl _, m', fun w hw => Matches.wspM hd hw⟩

theorem matches_ne_nil_ts {ts : List Tok} {c : Char} {v : List Char}
    (m : Matches ts (c :: v)) : ts ≠ [] := by
  intro h
  subst h
  cases m

/-- Facts about the concrete pattern and replacement, established by
evaluation. -/
theorem old_pattern_wspGood : wspGood old_pattern = true := by decide

set_option maxRecDepth 10000 in
theorem old_pattern_pairSafe : pairSafe '\x7b' 'i' old_pattern = true := by decide

set_option maxRecDepth 10000 in
theorem old_pattern_noSingle : noSingleSuff '\x7b' old_pattern = true := by decide

theorem new_code_head : new_code = '\x7b' :: 'i' :: new_code.drop 2 := by rfl

theorem new_code_getLast : new_code.getLast? = some '\x7d' := by rfl

theorem new_code_noBracePair : hasPair '\x7b' '(' new_code = false := by decide

theorem P_firstChars {v : List Char} (m : Matches old_pattern v) :
    ∃ v₂, v = '\x7b' :: '(' :: v₂ := by
  rw [old_pattern_head] at m
  cases m with
  | lit m1 =>
    cases m1 with
    | lit m2 => exact ⟨_, rfl⟩

/-- If a match of a suffix-state `ts` of the pattern sits at the front of
`reSub s`, it is empty or a match of `ts` sits at the front of `s`. -/
theorem kstar : ∀ (s : List Char) (ts : List Tok) (v q : List Char),
    ts <:+ old_pattern → Matches ts v → v ++ q = reSub s →
    v = [] ∨ ∃ w r, s = w ++ r ∧ Matches ts w := by
  intro s
  induction s with
  | nil =>
    intro ts v q _ m hvq
    rw [reSub_nil] at hvq
    left
    cases v with
    | nil => rfl
    | cons x v' => cases hvq
  | cons c rest ih =>
    intro ts v q hsuf m hvq
    cases v with
    | nil => exact .inl rfl
    | cons x v' =>
      right
      cases hm : matchToks old_pattern (c :: rest) with
      | none =>
        rw [reSub_cons_none hm] at hvq
        rw [List.cons_append] at hvq
        injection hvq with hx hvq'
        subst hx
        obtain ⟨ts'', hsuf'', m'', hrec⟩ := matches_step m
        rcases ih ts'' v' q (hsuf''.trans hsuf) m'' hvq' with hnil | ⟨w, r, hwr, hw⟩
        · subst hnil
          exact ⟨[x], rest, rfl, m⟩
        · exact ⟨x :: w, r, by rw [hwr, List.cons_append], hrec w hw⟩
      | some rem =>
        exfalso
        rw [reSub_cons_some hm] at hvq
        rw [new_code_head, List.cons_append] at hvq
        injection hvq with hx hvq'
        subst hx
        cases v' with
        | nil =>
          have hscc : singleCharComplete ts '\x7b' = true :=
            scc_of_matches_single m rfl
          have := noSingleSuff_spec old_pattern_noSingle hsuf (matches_ne_nil_ts m)
          rw [hscc] at this
          cases this
        | cons y v'' =>
          rw [List.cons_append] at hvq'
          injection hvq' with hy _
          subst hy
          have hpair : hasPair '\x7b' 'i' (Char.ofNat 123 :: 'i' :: v'') = true := by
            exact hasPair_here _ _ _
          have := hasPair_false_of_matches m (pairSafe_suffix old_pattern_pairSafe hsuf)
          rw [this] at hpair
          cases hpair

/-- No match of `old_pattern` occurs anywhere in the output of `reSub`. -/
theorem noMatch_reSub_aux : ∀ (n : Nat) (s : List Char), s.length ≤ n →
    ∀ (pre v post : List Char), pre ++ (v ++ post) = reSub s →
      Matches old_pattern v → False := by
  intro n
  induction n with
  | zero =>
    intro s hs pre v post heq m
    have hsnil : s = [] := List.length_eq_zero.mp (Nat.le_zero.mp hs)
    subst hsnil
    rw [reSub_nil] at heq
    obtain ⟨v₂, hv₂⟩ := P_firstChars m
    subst hv₂
    cases pre with
    | cons _ _ => cases heq
    | nil =>
      rw [List.nil_append, List.cons_append] at heq
      cases heq
  | succ n ihn =>
    intro s hs pre v post heq m
    cases s with
    | nil =>
      rw [reSub_nil] at heq
      obtain ⟨v₂, hv₂⟩ := P_firstChars m
      subst hv₂
      cases pre with
      | cons _ _ => cases heq
      | nil =>
        rw [List.nil_append, List.cons_append] at heq
        cases heq
    | cons c rest =>
      obtain ⟨v₂, hv₂⟩ := P_firstChars m
      cases hm : matchToks old_pattern (c :: rest) with
      | some rem =>
        have hrem : rem.length ≤ n := by
          have := matchP_lt hm
          simp only [List.length_cons] at this hs
          omega
        rw [reSub_cons_some hm] at heq
        rcases List.append_eq_append_iff.mp heq with ⟨a', hnc, hrest⟩ | ⟨c', hpre, hpost⟩
        · cases a' with
          | nil =>
            rw [List.nil_append] at hrest
            exact ihn rem hrem [] v post (by rw [List.nil_append]; exact hrest) m
          | cons a0 a'' =>
            subst hv₂
            rw [List.cons_append, List.cons_append, List.cons_append] at hrest
            injection hrest with h0 hrest'
            cases a'' with
            | nil =>
              subst h0
              have h1 : new_code.getLast? = some '\x7b' := by
                rw [hnc, List.getLast?_concat]
              rw [new_code_getLast] at h1
              simp at h1
            | cons a1 a''' =>
              rw [List.cons_append] at hrest'
              injection hrest' with h1 _
              have hcontra : hasPair '\x7b' '(' new_code = true := by
                rw [hnc, ← h0, ← h1]
                exact hasPair_of_append _ _ pre a'''
              rw [new_code_noBracePair] at hcontra
              cases hcontra
        · exact ihn rem hrem c' v post hpost.symm m
      | none =>
        rw [reSub_cons_none hm] at heq
        cases pre with
        | cons p0 pre' =>
          rw [List.cons_append] at heq
          injection heq with _ heq'
          have hr : rest.length ≤ n := by
            simp only [List.length_cons] at hs
            omega
          exact ihn rest hr pre' v post heq' m
        | nil =>
          rw [List.nil_append] at heq
          subst hv₂
          rw [List.cons_append] at heq
          injection heq with h1 h2
          obtain ⟨ts'', hsuf'', m'', hrec⟩ := matches_step m
          rcases kstar rest ts'' ('(' :: v₂) post hsuf'' m'' h2 with hnil | ⟨w, r, hwr, hw⟩
          · cases hnil
          · have hmm2 : Matches old_pattern (c :: w) := by
              rw [← h1]
              exact hrec w hw
            have hne := matchToks_complete hmm2 old_pattern_wspGood r
            rw [List.cons_append, ← hwr] at hne
            exact hne hm

theorem noMatch_reSub (s pre v post : List Char)
    (heq : pre ++ (v ++ post) = reSub s) (m : Matches old_pattern v) : False :=
  noMatch_reSub_aux s.length s (le_refl _) pre v post heq m

/-- A string without a match is left unchanged. -/
theorem reSub_of_no_match : ∀ (s : List Char), hasMatchB s = false → reSub s = s := by
  intro s
  induction s with
  | nil => intro _; exact reSub_nil
  | cons c rest ih =>
    intro h
    rw [hasMatchB, Bool.or_eq_false_iff] at h
    have hm : matchToks old_pattern (c :: rest) = none := by
      cases hmm : matchToks old_pattern (c :: rest) with
      | none => rfl
      | some r =>
        have := h.1
        rw [hmm] at this
        cases this
    rw [reSub_cons_none hm, ih h.2]

theorem hasMatchB_false_of_noMatch : ∀ (t : List Char),
    (∀ pre v post, pre ++ (v ++ post) = t → Matches old_pattern v → False) →
    hasMatchB t = false := by
  intro t
  induction t with
  | nil => intro _; rfl
  | cons c rest ih =>
    intro h
    rw [hasMatchB, Bool.or_eq_false_iff]
    constructor
    · cases hm : matchToks old_pattern (c :: rest) with
      | none => rfl
      | some r =>
        obtain ⟨v, hvr, m⟩ := matchToks_sound _ _ _ hm
        exact absurd m (fun m' => h [] v r (by rw [List.nil_append, ← hvr]) m')
    · exact ih (fun pre v post heq m' => h (c :: pre) v post (by rw [List.cons_append, heq]) m')

theorem reSub_idem (s : List Char) : reSub (reSub s) = reSub s := by
  apply reSub_of_no_match
  apply hasMatchB_false_of_noMatch
  intro pre v post heq m
  exact noMatch_reSub s pre v post heq m

set_option maxRecDepth 10000 in
theorem new_code_no_match : hasMatchB new_code = false := by decide

/-- C9: the substitution `content ↦ re.sub(old_pattern, new_code,
content)` of `scripts/fix-home.py` is idempotent on every input, the
replacement text contains no match of the pattern, and an input with no
match is written back unchanged. -/
theorem fix_home_sub_idempotent :
    (∀ s : List Char, reSub (reSub s) = reSub s) ∧
    hasMatchB new_code = false ∧
    (∀ s : List Char, hasMatchB s = false → reSub s = s) :=
  ⟨reSub_idem, new_code_no_match, reSub_of_no_match⟩

/-- Concrete witness for C9: a match-free input is returned unchanged by
the substitution. -/
theorem fix_home_sub_idempotent_witness :
    reSub ("const isFree = beat.price".data) = "const isFree = beat.price".data :=
  fix_home_sub_idempotent.2.2 _ (by decide)

end BroLab
